import Mathlib

/-!
Shallow embedding of the FWG4 map generator core (src/src/utils/terrain.ts,
src/src/utils/coastline.ts and the border-carving block of the map
generator component), together with theorems settling the frozen claims
about it.

Numbers are modelled as exact rationals.  JavaScript's `toFixed(2)` key
rounding is modelled by rounding to integer hundredths.  JavaScript `Map`s
are modelled as insertion-ordered association lists, `Set`s as lists of the
added elements, and `Math.random()` draws as explicit rational inputs in
`[0,1)`.  In-place mutation of cell fields becomes explicit state passing:
each mutating routine returns the updated cell list.
-/

/-- A 2D point, `[number, number]` in the source. -/
abbrev Pt := ℚ × ℚ

/-- A rounded vertex key: the pair of coordinates in integer hundredths,
modelling the string `x.toFixed(2) + "," + y.toFixed(2)`. -/
abbrev VKey := ℤ × ℤ

/-- One coordinate rounded to hundredths, as an integer (`toFixed(2)`). -/
def key2 (q : ℚ) : ℤ := round (q * 100)

/-- Rounded vertex key of a point (the `norm`/`key`/`vertexKey` helpers). -/
def vkey (p : Pt) : VKey := (key2 p.1, key2 p.2)

/-- The point a vertex key parses back to (`key.split(',').map(Number)`). -/
def keyPt (k : VKey) : Pt := ((k.1 : ℚ) / 100, (k.2 : ℚ) / 100)

/-- `Cell` from src/utils/voronoi.ts: id, centroid, polygon ring,
neighbor ids, height, plus the fields written by later passes
(`isLand`, `featureId`). -/
structure Cell where
  id : ℤ
  centroid : Pt
  polygon : List Pt
  neighbors : List ℤ
  height : ℚ
  isLand : Bool
  featureId : Option ℕ
deriving DecidableEq, Repr, Inhabited

/-- `CoastlineSegment` from coastline.ts.  `stop` is the source's `end`
field (a reserved word in Lean). -/
structure CoastlineSegment where
  start : Pt
  stop : Pt
  landCellId : ℤ
  waterCellId : ℤ
  featureId : Option ℕ
deriving DecidableEq, Repr

/-- Feature kind: `'ocean' | 'lake' | 'island'`. -/
inductive FKind where
  | ocean
  | lake
  | island
deriving DecidableEq, Repr

/-- `Feature` from coastline.ts (the display-only `name` string and the
optional `boundary` are omitted; `boundary` is produced separately by the
assembler). -/
structure Feature where
  id : ℕ
  type : FKind
  land : Bool
  border : Bool
  size : ℕ
  cells : List ℤ
deriving DecidableEq, Repr

/-- `Blob` from terrain.ts. -/
structure Blob where
  x : ℚ
  y : ℚ
  radius : ℚ
  height : ℚ
deriving DecidableEq, Repr

/-! ### terrain.ts -/

/-- `generateRandomBlobInSafeZone` (terrain.ts, revision with positional
jitter).  The five `Math.random()` draws are passed explicitly, in call
order: radius draw, jitterX draw, jitterY draw, x draw, y draw. -/
def generateRandomBlobInSafeZone (width height margin maxRadius peakHeight : ℚ)
    (r1 r2 r3 r4 r5 : ℚ) : Blob :=
  let radius := r1 * maxRadius
  let positionJitter := maxRadius * (3 / 10)
  let jitterX := (r2 - 1 / 2) * positionJitter
  let jitterY := (r3 - 1 / 2) * positionJitter
  let x := margin + r4 * (width - 2 * margin) + jitterX
  let y := margin + r5 * (height - 2 * margin) + jitterY
  { x := x, y := y, radius := radius, height := peakHeight }

/-- `calculateAdaptiveSeaLevel` (terrain.ts).  `heights.length / 4` is
`Math.floor(length * 0.25)`. -/
def calculateAdaptiveSeaLevel (cells : List Cell) (targetSeaLevel : ℚ)
    (continentMode : Bool) : ℚ :=
  let heights := (cells.map (·.height)).filter (fun h => 0 < h)
  if heights.length = 0 then targetSeaLevel
  else if continentMode then
    let sortedHeights := heights.insertionSort (· ≤ ·)
    let percentile25 := sortedHeights.getD (heights.length / 4) 0
    min targetSeaLevel (percentile25 * (4 / 5))
  else targetSeaLevel

/-- `applySeaLevel` (terrain.ts): classify every cell by
`height > adaptiveSeaLevel` and zero the height of water cells. -/
def applySeaLevel (cells : List Cell) (seaLevel : ℚ) (continentMode : Bool) :
    List Cell :=
  let adaptiveSeaLevel := calculateAdaptiveSeaLevel cells seaLevel continentMode
  cells.map (fun cell =>
    if adaptiveSeaLevel < cell.height then { cell with isLand := true }
    else { cell with isLand := false, height := 0 })

/-- The border-carving block of `generateMap` (MapGenerator component):
any cell whose centroid lies strictly inside the `waterMargin` strip along
one of the four map edges is forced to water with height 0. -/
def carveBorderWater (cells : List Cell) (waterMargin width height : ℚ) :
    List Cell :=
  cells.map (fun cell =>
    if cell.centroid.1 < waterMargin ∨ width - waterMargin < cell.centroid.1 ∨
        cell.centroid.2 < waterMargin ∨ height - waterMargin < cell.centroid.2 then
      if cell.isLand then { cell with isLand := false, height := 0 } else cell
    else cell)

/-! ### coastline.ts: boundary edge extractor (`findCoastalEdges`, unique-edge
counting revision) -/

/-- The consecutive edges `(polygon[i], polygon[(i+1) % n])` of a polygon
ring. -/
def polygonEdges (polygon : List Pt) : List (Pt × Pt) :=
  (List.range polygon.length).map (fun i =>
    (polygon.getD i (0, 0), polygon.getD ((i + 1) % polygon.length) (0, 0)))

/-- Normalized edge key: rounded endpoints, canonically ordered by the raw
coordinates (`x1 < x2 || (x1 === x2 && y1 < y2)`). -/
def canonEdgeKey (start stop : Pt) : VKey × VKey :=
  if start.1 < stop.1 ∨ (start.1 = stop.1 ∧ start.2 < stop.2) then
    (vkey start, vkey stop)
  else (vkey stop, vkey start)

/-- Increment the count of one edge key in the insertion-ordered edge map
(`edgeMap.set(key, (edgeMap.get(key) || 0) + 1)`). -/
def bumpCount (m : List ((VKey × VKey) × ℕ)) (k : VKey × VKey) :
    List ((VKey × VKey) × ℕ) :=
  if m.any (fun e => decide (e.1 = k)) then
    m.map (fun e => if e.1 = k then (e.1, e.2 + 1) else e)
  else m ++ [(k, 1)]

/-- The edge-multiplicity map over all land-cell polygons with at least 3
vertices. -/
def edgeMap (cells : List Cell) : List ((VKey × VKey) × ℕ) :=
  (cells.filter (fun c => c.isLand && decide (3 ≤ c.polygon.length))).foldl
    (fun m c =>
      (polygonEdges c.polygon).foldl (fun m e => bumpCount m (canonEdgeKey e.1 e.2)) m)
    []

/-- `cell.polygon.some((point, i) => ...)`: does the polygon contain the
exact consecutive pair `(start, stop)` in either orientation? -/
def polygonHasEdge (polygon : List Pt) (start stop : Pt) : Bool :=
  (List.range polygon.length).any (fun i =>
    let point := polygon.getD i (0, 0)
    let nextPoint := polygon.getD ((i + 1) % polygon.length) (0, 0)
    decide ((point = start ∧ nextPoint = stop) ∨ (point = stop ∧ nextPoint = start)))

/-- `cells.find(c => c.id === id)`. -/
def findCell (cells : List Cell) (id : ℤ) : Option Cell :=
  cells.find? (fun c => decide (c.id = id))

/-- `findAdjacentWaterCell`: the first water neighbor of the land cell whose
polygon contains the exact edge. -/
def findAdjacentWaterCell (landCell : Cell) (edgeStart edgeEnd : Pt)
    (cells : List Cell) : Option Cell :=
  landCell.neighbors.findSome? (fun neighborId =>
    match findCell cells neighborId with
    | some neighbor =>
      if !neighbor.isLand && polygonHasEdge neighbor.polygon edgeStart edgeEnd then
        some neighbor
      else none
    | none => none)

/-- The first loop over `edgeMap.entries()` of `findCoastalEdges`: for each
count-1 key, parse the rounded endpoints back from the key, look up a land
cell whose polygon contains them exactly, then a water neighbor sharing
them exactly, and emit the segment only if both lookups succeed. -/
def interiorSegments (cells : List Cell) : List CoastlineSegment :=
  (edgeMap cells).filterMap (fun ec =>
    if ec.2 = 1 then
      let start := keyPt ec.1.1
      let stop := keyPt ec.1.2
      match cells.find? (fun cell => cell.isLand && polygonHasEdge cell.polygon start stop) with
      | some landCell =>
        match findAdjacentWaterCell landCell start stop cells with
        | some waterCell =>
          some { start := start, stop := stop, landCellId := landCell.id,
                 waterCellId := waterCell.id, featureId := none }
        | none => none
      | none => none
    else none)

/-- `x1 === 0 ? 0 : x1 === width ? width : x1` applied to both coordinates
(the "normalization" of border endpoints, an identity map). -/
def borderNormalize (width height : ℚ) (p : Pt) : Pt :=
  (if p.1 = 0 then 0 else if p.1 = width then width else p.1,
   if p.2 = 0 then 0 else if p.2 = height then height else p.2)

/-- The second loop of `findCoastalEdges`: emit every land-cell polygon edge
with an endpoint exactly on the map border, with the sentinel water cell id
`-1` and the cell's `featureId`. -/
def borderSegments (cells : List Cell) (width height : ℚ) : List CoastlineSegment :=
  ((cells.filter (fun c => c.isLand && decide (3 ≤ c.polygon.length))).map (fun cell =>
    (polygonEdges cell.polygon).filterMap (fun e =>
      if e.1.1 = 0 ∨ e.1.1 = width ∨ e.1.2 = 0 ∨ e.1.2 = height ∨
          e.2.1 = 0 ∨ e.2.1 = width ∨ e.2.2 = 0 ∨ e.2.2 = height then
        some { start := borderNormalize width height e.1,
               stop := borderNormalize width height e.2,
               landCellId := cell.id, waterCellId := -1,
               featureId := cell.featureId }
      else none))).flatten

/-- `findCoastalEdges(cells, width, height)`: interior count-1 segments
followed by explicit border segments. -/
def findCoastalEdges (cells : List Cell) (width height : ℚ) : List CoastlineSegment :=
  interiorSegments cells ++ borderSegments cells width height

/-! ### coastline.ts: boundary loop assembler (`assembleBoundaryLoop`,
open-chain walker revision) -/

/-- Adjacency map from rounded vertex keys to neighbor points, insertion
ordered like a JavaScript `Map`. -/
abbrev AdjList := List (VKey × List Pt)

/-- Dedupe segments by the unordered pair of rounded endpoint keys; `seen`
holds both orientations of every kept segment's key pair. -/
def dedupeSegments (segments : List CoastlineSegment) : List CoastlineSegment :=
  (segments.foldl (fun (st : List (VKey × VKey) × List CoastlineSegment) seg =>
    let k1 := (vkey seg.start, vkey seg.stop)
    let k2 := (vkey seg.stop, vkey seg.start)
    if k1 ∈ st.1 ∨ k2 ∈ st.1 then st
    else (st.1 ++ [k1, k2], st.2 ++ [seg])) ([], [])).2

/-- `if (!adj.has(k)) adj.set(k, [])`. -/
def ensureKey (adj : AdjList) (k : VKey) : AdjList :=
  if adj.any (fun e => decide (e.1 = k)) then adj else adj ++ [(k, [])]

/-- `adj.get(k)!.push(p)`. -/
def pushNbr (adj : AdjList) (k : VKey) (p : Pt) : AdjList :=
  adj.map (fun e => if e.1 = k then (e.1, e.2 ++ [p]) else e)

/-- Process one deduped segment into the adjacency map. -/
def addSegment (adj : AdjList) (seg : CoastlineSegment) : AdjList :=
  let k1 := vkey seg.start
  let k2 := vkey seg.stop
  pushNbr (pushNbr (ensureKey (ensureKey adj k1) k2) k1 seg.stop) k2 seg.start

/-- Build the vertex adjacency map of the deduped segments. -/
def buildAdj (segments : List CoastlineSegment) : AdjList :=
  segments.foldl addSegment []

/-- `adj.get(k)`. -/
def lookupAdj (adj : AdjList) (k : VKey) : Option (List Pt) :=
  (adj.find? (fun e => decide (e.1 = k))).map (·.2)

/-- The rounded keys of a vertex's neighbor points. -/
def nbrKeys (adj : AdjList) (k : VKey) : List VKey :=
  ((lookupAdj adj k).getD []).map vkey

/-- The degree-1 vertices, in adjacency-map insertion order. -/
def endpointsOf (adj : AdjList) : List VKey :=
  (adj.filter (fun e => decide (e.2.length = 1))).map Prod.fst

/-- The `(a, b) => a.y - b.y || a.x - b.x` comparator on parsed vertex
coordinates, as a relation. -/
def vertLe (a b : VKey) : Prop :=
  (keyPt a).2 < (keyPt b).2 ∨ ((keyPt a).2 = (keyPt b).2 ∧ (keyPt a).1 ≤ (keyPt b).1)

instance : DecidableRel vertLe := fun a b => by
  unfold vertLe
  infer_instance

instance : IsTotal VKey vertLe := by
  constructor
  intro a b
  unfold vertLe
  rcases lt_trichotomy (keyPt a).2 (keyPt b).2 with h | h | h
  · exact Or.inl (Or.inl h)
  · rcases le_total (keyPt a).1 (keyPt b).1 with h1 | h1
    · exact Or.inl (Or.inr ⟨h, h1⟩)
    · exact Or.inr (Or.inr ⟨h.symm, h1⟩)
  · exact Or.inr (Or.inl h)

instance : IsTrans VKey vertLe := by
  constructor
  intro a b c hab hbc
  unfold vertLe at *
  rcases hab with h | ⟨he, hx⟩
  · rcases hbc with h' | ⟨he', _⟩
    · exact Or.inl (h.trans h')
    · exact Or.inl (he' ▸ h)
  · rcases hbc with h' | ⟨he', hx'⟩
    · exact Or.inl (he ▸ h')
    · exact Or.inr ⟨he.trans he', hx.trans hx'⟩

/-- The do-while walk of `assembleBoundaryLoop`: push the parsed current
point, move to the first neighbor key that is neither the previous vertex
nor already visited, stop on no candidate, on the hard safety bound
(`path.length > dedupedCount + 2`), or when the while condition
`currKey !== startKey && !visited.has(currKey)` fails.  `fuel` only bounds
the recursion depth; it is chosen at the call site so that it never runs
out before one of the source's own exits fires. -/
def walkStep (adj : AdjList) (dedupedCount : ℕ) (startKey : VKey) :
    ℕ → Option VKey → VKey → List VKey → List Pt → List Pt
  | 0, _, _, _, path => path
  | fuel + 1, prevKey, currKey, visited, path =>
    let path := path ++ [keyPt currKey]
    let visited := visited ++ [currKey]
    let neighbors := (lookupAdj adj currKey).getD []
    match (neighbors.map vkey).find? (fun k =>
        (match prevKey with
         | none => true
         | some p => decide (k ≠ p)) && !(decide (k ∈ visited))) with
    | none => path
    | some nextKey =>
      if dedupedCount + 2 < path.length then path
      else if nextKey ≠ startKey ∧ nextKey ∉ visited then
        walkStep adj dedupedCount startKey fuel (some currKey) nextKey visited path
      else path

/-- `assembleBoundaryLoop` (open-chain walker revision): dedupe, build the
adjacency map, pick the start vertex (first endpoint if at least two
degree-1 vertices exist, else the lowest vertex by y then x), and walk. -/
def assembleBoundaryLoop (segments : List CoastlineSegment) : List Pt :=
  if segments.length = 0 then []
  else
    let dedupedSegments := dedupeSegments segments
    if dedupedSegments.length = 0 then []
    else
      let adj := buildAdj dedupedSegments
      let endpoints := endpointsOf adj
      if 2 ≤ endpoints.length then
        match endpoints with
        | [] => []
        | e :: _ =>
          walkStep adj dedupedSegments.length e (dedupedSegments.length + 4) none e [] []
      else
        match (adj.map Prod.fst).insertionSort vertLe with
        | [] => []
        | v :: _ =>
          walkStep adj dedupedSegments.length v (dedupedSegments.length + 4) none v [] []

/-! ### coastline.ts: feature classifier (`labelFeatures`) -/

/-- `centroid[0] <= 10 || centroid[0] >= width - 10 || centroid[1] <= 10 ||
centroid[1] >= height - 10`: the border-proximity test used by the ocean
seeding and the island `touchesBorder` check. -/
def isBorderCell (width height : ℚ) (cell : Cell) : Bool :=
  decide (cell.centroid.1 ≤ 10) || decide (width - 10 ≤ cell.centroid.1) ||
    decide (cell.centroid.2 ≤ 10) || decide (height - 10 ≤ cell.centroid.2)

/-- The inner `for (const neighborId of cell.neighbors)` of the flood
fill: look each neighbor id up, and enqueue it (marking it visited) when it
matches the pass's land/water predicate and is not yet visited. -/
def enqueueNbrs (cells : List Cell) (pred : Cell → Bool) (nbrIds : List ℤ)
    (visited : List ℤ) (queue : List Cell) : List ℤ × List Cell :=
  nbrIds.foldl (fun vq neighborId =>
    match findCell cells neighborId with
    | some neighbor =>
      if pred neighbor && !(decide (neighbor.id ∈ vq.1)) then
        (vq.1 ++ [neighbor.id], vq.2 ++ [neighbor])
      else vq
    | none => vq) (visited, queue)

/-- The `while (queue.length > 0)` flood-fill loop: dequeue, record the
cell id, enqueue qualifying neighbors.  Returns the final
(queue, visited, collected ids); `fuel` bounds the number of dequeues and
is chosen at call sites so that the queue always drains first. -/
def bfs (cells : List Cell) (pred : Cell → Bool) :
    ℕ → List Cell → List ℤ → List ℤ → List Cell × List ℤ × List ℤ
  | 0, queue, visited, acc => (queue, visited, acc)
  | _ + 1, [], visited, acc => ([], visited, acc)
  | fuel + 1, cell :: queue, visited, acc =>
    let acc' := acc ++ [cell.id]
    let vq := enqueueNbrs cells pred cell.neighbors visited queue
    bfs cells pred fuel vq.2 vq.1 acc'

/-- `labelOcean`: flood-fill water from every border water seed, sharing
one visited set and one collected list across seeds. -/
def labelOcean (cells : List Cell) (width height : ℚ) (featureId : ℕ) : Feature :=
  let borderWaterCells := cells.filter (fun cell => !cell.isLand && isBorderCell width height cell)
  let st := borderWaterCells.foldl (fun (st : List ℤ × List ℤ) startCell =>
    if startCell.id ∈ st.1 then st
    else
      let r := bfs cells (fun c => !c.isLand) (cells.length + 1) [startCell]
        (st.1 ++ [startCell.id]) st.2
      (r.2.1, r.2.2)) ([], [])
  { id := featureId, type := .ocean, land := false, border := true,
    size := st.2.length, cells := st.2 }

/-- Accumulator of the lake and island passes: features built so far, the
pass-local visited set, the ids already carrying a `featureId` (modelling
the `cell.featureId !== undefined` reads on the mutated array), and the
next feature id. -/
structure FillState where
  feats : List Feature
  visited : List ℤ
  assigned : List ℤ
  nextId : ℕ

/-- `labelLakes`: one water flood fill per unvisited, unassigned water
cell, in cell order. -/
def labelLakes (cells : List Cell) (assigned : List ℤ) (startFeatureId : ℕ) :
    List Feature :=
  (cells.foldl (fun (st : FillState) cell =>
    if cell.isLand || decide (cell.id ∈ st.visited) || decide (cell.id ∈ st.assigned) then st
    else
      let r := bfs cells (fun c => !c.isLand) (cells.length + 1) [cell]
        (st.visited ++ [cell.id]) []
      let lakeCells := r.2.2
      let feat : Feature :=
        { id := st.nextId, type := .lake, land := false, border := false,
          size := lakeCells.length, cells := lakeCells }
      { feats := st.feats ++ [feat], visited := r.2.1,
        assigned := st.assigned ++ lakeCells, nextId := st.nextId + 1 })
    ⟨[], [], assigned, startFeatureId⟩).feats

/-- `labelIslands`: one land flood fill per unvisited, unassigned land
cell, in cell order, with the border-contact check over the collected
cells. -/
def labelIslands (cells : List Cell) (width height : ℚ) (assigned : List ℤ)
    (startFeatureId : ℕ) : List Feature :=
  (cells.foldl (fun (st : FillState) cell =>
    if !cell.isLand || decide (cell.id ∈ st.visited) || decide (cell.id ∈ st.assigned) then st
    else
      let r := bfs cells (fun c => c.isLand) (cells.length + 1) [cell]
        (st.visited ++ [cell.id]) []
      let islandCells := r.2.2
      let touchesBorder := islandCells.any (fun cellId =>
        match findCell cells cellId with
        | some landCell => isBorderCell width height landCell
        | none => false)
      let feat : Feature :=
        { id := st.nextId, type := .island, land := true, border := touchesBorder,
          size := islandCells.length, cells := islandCells }
      { feats := st.feats ++ [feat], visited := r.2.1,
        assigned := st.assigned ++ islandCells, nextId := st.nextId + 1 })
    ⟨[], [], assigned, startFeatureId⟩).feats

/-- Replay the `cell.featureId = f.id` writes in pass order: later features
overwrite earlier ones, matching the mutation order of the source. -/
def applyFeatureIds (cells : List Cell) (features : List Feature) : List Cell :=
  features.foldl (fun cs f =>
    cs.map (fun c => if c.id ∈ f.cells then { c with featureId := some f.id } else c)) cells

/-- `labelFeatures`: reset `featureId`, label the ocean (feature id 0),
then lakes (ids from 1), then islands (ids after the lakes), and return
the features together with the relabelled cells. -/
def labelFeatures (cells : List Cell) (width height : ℚ) :
    List Feature × List Cell :=
  let cells0 := cells.map (fun c => { c with featureId := none })
  let oceanFeature := labelOcean cells0 width height 0
  let lakeFeatures := labelLakes cells0 oceanFeature.cells 1
  let lakeAssigned := lakeFeatures.foldl (fun a f => a ++ f.cells) oceanFeature.cells
  let islandFeatures := labelIslands cells0 width height lakeAssigned (1 + lakeFeatures.length)
  let features := oceanFeature :: (lakeFeatures ++ islandFeatures)
  (features, applyFeatureIds cells0 features)

/-- One iteration of the `labelLakes` fold over cells, named for the
invariant proofs; `labelLakes_eq` ties it to `labelLakes`. -/
def lakeStep (cells : List Cell) (st : FillState) (cell : Cell) : FillState :=
  if cell.isLand || decide (cell.id ∈ st.visited) || decide (cell.id ∈ st.assigned) then st
  else
    let r := bfs cells (fun c => !c.isLand) (cells.length + 1) [cell]
      (st.visited ++ [cell.id]) []
    let lakeCells := r.2.2
    let feat : Feature :=
      { id := st.nextId, type := .lake, land := false, border := false,
        size := lakeCells.length, cells := lakeCells }
    { feats := st.feats ++ [feat], visited := r.2.1,
      assigned := st.assigned ++ lakeCells, nextId := st.nextId + 1 }

/-- Invariant of the lake pass: `assigned` is the ocean set followed by the
pass-local `visited`, which is exactly the concatenation of the lake
features built so far, is duplicate-free, and holds ids of water cells
outside the ocean. -/
def LakeInv (cells : List Cell) (O : List ℤ) (st : FillState) : Prop :=
  st.assigned = O ++ st.visited ∧
  st.visited = ((st.feats.map Feature.cells)).flatten ∧
  st.visited.Nodup ∧
  (∀ i ∈ st.visited, i ∈ cells.map Cell.id) ∧
  (∀ i ∈ st.visited, ∃ c ∈ cells, c.id = i ∧ c.isLand = false ∧ i ∉ O) ∧
  (∀ f ∈ st.feats, f.type = FKind.lake)

/-- One iteration of the `labelIslands` fold over cells, named for the
invariant proofs; `labelIslands_eq` ties it to `labelIslands`. -/
def islandStep (cells : List Cell) (width height : ℚ) (st : FillState)
    (cell : Cell) : FillState :=
  if !cell.isLand || decide (cell.id ∈ st.visited) || decide (cell.id ∈ st.assigned) then st
  else
    let r := bfs cells (fun c => c.isLand) (cells.length + 1) [cell]
      (st.visited ++ [cell.id]) []
    let islandCells := r.2.2
    let touchesBorder := islandCells.any (fun cellId =>
      match findCell cells cellId with
      | some landCell => isBorderCell width height landCell
      | none => false)
    let feat : Feature :=
      { id := st.nextId, type := .island, land := true, border := touchesBorder,
        size := islandCells.length, cells := islandCells }
    { feats := st.feats ++ [feat], visited := r.2.1,
      assigned := st.assigned ++ islandCells, nextId := st.nextId + 1 }

/-- Invariant of the island pass, mirroring `LakeInv` with land cells and
an arbitrary pre-assigned set. -/
def IslandInv (cells : List Cell) (A0 : List ℤ) (st : FillState) : Prop :=
  st.assigned = A0 ++ st.visited ∧
  st.visited = ((st.feats.map Feature.cells)).flatten ∧
  st.visited.Nodup ∧
  (∀ i ∈ st.visited, i ∈ cells.map Cell.id) ∧
  (∀ i ∈ st.visited, ∃ c ∈ cells, c.id = i ∧ c.isLand = true) ∧
  (∀ f ∈ st.feats, f.type = FKind.island)

/-- One `cell.featureId = f.id` write of `applyFeatureIds`, factored out
for the fold lemmas. -/
def cellWrite (c : Cell) (f : Feature) : Cell :=
  if c.id ∈ f.cells then { c with featureId := some f.id } else c

/-- Cyclic indexing into a vertex-key list, used to state that a feature's
deduped boundary edges form a single simple cycle. -/
def cyclicGet (ks : List VKey) (i : ℕ) : VKey := ks.getD (i % ks.length) (0, 0)

/-! ### Concrete example inputs used by counterexamples and witnesses -/

/-- A boundary segment between fixed cell ids, for the assembler examples. -/
def exSeg (a b : Pt) : CoastlineSegment :=
  { start := a, stop := b, landCellId := 0, waterCellId := 1, featureId := none }

/-- A triangle coastline: a single closed 3-cycle of boundary edges. -/
def exTriangle : List CoastlineSegment :=
  [exSeg (0, 0) (10, 0), exSeg (10, 0) (5, 10), exSeg (5, 10) (0, 0)]

/-- The triangle's vertex keys in cycle order. -/
def exTriangleKeys : List VKey := [(0, 0), (1000, 0), (500, 1000)]

/-- A figure-eight coastline: two 3-cycles sharing the vertex (5,5); every
vertex has even degree, so there is no degree-1 vertex, yet the graph is
not a single cycle. -/
def exFigureEight : List CoastlineSegment :=
  [exSeg (5, 5) (0, 0), exSeg (0, 0) (10, 0), exSeg (10, 0) (5, 5),
   exSeg (5, 5) (0, 10), exSeg (0, 10) (10, 10), exSeg (10, 10) (5, 5)]

/-- A single-segment open chain from (5,5) to (0,0); its first-inserted
endpoint (5,5) is not the lowest one. -/
def exChain : List CoastlineSegment := [exSeg (5, 5) (0, 0)]

/-- A land cell whose polygon has one vertex, (20.001, 20), that does not
coincide with its own rounding. -/
def exLandCellA : Cell :=
  { id := 0, centroid := (25, 23),
    polygon := [(20 + 1 / 1000, 20), (30, 20), (25, 30)],
    neighbors := [1], height := 1, isLand := true, featureId := none }

/-- The water neighbor sharing the exact edge ((20.001, 20), (30, 20)) with
`exLandCellA`. -/
def exWaterCellB : Cell :=
  { id := 1, centroid := (25, 17),
    polygon := [(20 + 1 / 1000, 20), (30, 20), (25, 10)],
    neighbors := [0], height := 0, isLand := false, featureId := none }

/-- A land cell whose polygon coordinates are whole numbers (fixed points
of the key rounding), sharing the exact edge ((20, 20), (30, 20)) with
`exIntWaterCell`. -/
def exIntLandCell : Cell :=
  { id := 0, centroid := (25, 23), polygon := [(20, 20), (30, 20), (25, 30)],
    neighbors := [1], height := 1, isLand := true, featureId := none }

/-- The water neighbor of `exIntLandCell` across the edge ((20, 20),
(30, 20)). -/
def exIntWaterCell : Cell :=
  { id := 1, centroid := (25, 17), polygon := [(20, 20), (30, 20), (25, 10)],
    neighbors := [0], height := 0, isLand := false, featureId := none }

/-- A land cell with two polygon vertices at x = 0.0001: within the
codebase's own rounding tolerance of the map edge x = 0, but not exactly
on it. -/
def exNearBorderCell : Cell :=
  { id := 0, centroid := (3, 50),
    polygon := [(1 / 10000, 40), (8, 40), (8, 60), (1 / 10000, 60)],
    neighbors := [], height := 1, isLand := true, featureId := some 2 }

/-- A land cell whose polygon lies exactly on the map edge x = 0, for the
border-segment witness. -/
def exBorderCell : Cell :=
  { id := 3, centroid := (3, 50),
    polygon := [(0, 40), (8, 40), (8, 60), (0, 60)],
    neighbors := [], height := 1, isLand := true, featureId := some 2 }

/-- A 3-cell map for the feature-classification witness: border water cell
0, land cell 1, interior water cell 2 (a lake). -/
def exCells3 : List Cell :=
  [{ id := 0, centroid := (5, 5), polygon := [], neighbors := [1],
     height := 0, isLand := false, featureId := none },
   { id := 1, centroid := (50, 50), polygon := [], neighbors := [0, 2],
     height := 1, isLand := true, featureId := none },
   { id := 2, centroid := (50, 60), polygon := [], neighbors := [1],
     height := 0, isLand := false, featureId := none }]

/-- Cells with heights 3, 1, 0, 2 for the sea-level witness. -/
def exHeightCells : List Cell :=
  [{ id := 0, centroid := (0, 0), polygon := [], neighbors := [],
     height := 3, isLand := false, featureId := none },
   { id := 1, centroid := (0, 0), polygon := [], neighbors := [],
     height := 1, isLand := false, featureId := none },
   { id := 2, centroid := (0, 0), polygon := [], neighbors := [],
     height := 0, isLand := false, featureId := none },
   { id := 3, centroid := (0, 0), polygon := [], neighbors := [],
     height := 2, isLand := false, featureId := none }]

/-- One land cell on the border strip and one inland, for the carving
witness. -/
def exCarveCells : List Cell :=
  [{ id := 0, centroid := (10, 30), polygon := [], neighbors := [],
     height := 1, isLand := true, featureId := none },
   { id := 1, centroid := (120, 130), polygon := [], neighbors := [],
     height := 2, isLand := true, featureId := none }]

/-! ### General helper lemmas -/

theorem getD_map_of_lt {α β : Type _} (f : α → β) (l : List α) (i : ℕ)
    (h : i < l.length) (d : β) (d' : α) :
    (l.map f).getD i d = f (l.getD i d') := by
  rw [List.getD_eq_getElem l d' h, List.getD_eq_getElem (l.map f) d (by simpa using h),
    List.getElem_map]

theorem applySeaLevel_getD (cells : List Cell) (seaLevel : ℚ) (continentMode : Bool)
    (i : ℕ) (hi : i < cells.length) :
    (applySeaLevel cells seaLevel continentMode).getD i default =
      (if calculateAdaptiveSeaLevel cells seaLevel continentMode
          < (cells.getD i default).height
       then { cells.getD i default with isLand := true }
       else { cells.getD i default with isLand := false, height := 0 }) := by
  unfold applySeaLevel
  exact getD_map_of_lt _ _ _ hi _ _

theorem carveBorderWater_getD (cells : List Cell) (waterMargin width height : ℚ)
    (i : ℕ) (hi : i < cells.length) :
    (carveBorderWater cells waterMargin width height).getD i default =
      (if (cells.getD i default).centroid.1 < waterMargin ∨
          width - waterMargin < (cells.getD i default).centroid.1 ∨
          (cells.getD i default).centroid.2 < waterMargin ∨
          height - waterMargin < (cells.getD i default).centroid.2 then
        if (cells.getD i default).isLand then
          { cells.getD i default with isLand := false, height := 0 }
        else cells.getD i default
       else cells.getD i default) := by
  unfold carveBorderWater
  exact getD_map_of_lt _ _ _ hi _ _

/-! ### C4: sea-level classification -/

/-- C4: `applySeaLevel` classifies every cell by a strict comparison of its
height with the effective sea level and zeroes water-cell heights; with
continental mode on and at least one positive height, the effective sea
level is `min(target, (25th percentile of positive heights) * 0.8)` where
the percentile is the entry at index `floor(n * 0.25)` of the ascending
sort of the positive heights; with no positive height it is the raw
target. -/
theorem C4_applySeaLevel_spec (cells : List Cell) (seaLevel : ℚ) (continentMode : Bool) :
    (applySeaLevel cells seaLevel continentMode).length = cells.length ∧
    (∀ i, i < cells.length →
      ((applySeaLevel cells seaLevel continentMode).getD i default).isLand
          = decide (calculateAdaptiveSeaLevel cells seaLevel continentMode
              < (cells.getD i default).height) ∧
      ((applySeaLevel cells seaLevel continentMode).getD i default).height
          = (if calculateAdaptiveSeaLevel cells seaLevel continentMode
                < (cells.getD i default).height
             then (cells.getD i default).height else 0)) ∧
    (continentMode = true →
      (cells.map (·.height)).filter (fun h => 0 < h) ≠ [] →
      ∃ sorted : List ℚ,
        sorted.Perm ((cells.map (·.height)).filter (fun h => 0 < h)) ∧
        sorted.Sorted (· ≤ ·) ∧
        calculateAdaptiveSeaLevel cells seaLevel continentMode
          = min seaLevel
              (sorted.getD (((cells.map (·.height)).filter (fun h => 0 < h)).length / 4) 0
                * (4 / 5))) ∧
    ((cells.map (·.height)).filter (fun h => 0 < h) = [] →
      calculateAdaptiveSeaLevel cells seaLevel continentMode = seaLevel) := by
  refine ⟨by simp [applySeaLevel], ?_, ?_, ?_⟩
  · intro i hi
    rw [applySeaLevel_getD cells seaLevel continentMode i hi]
    by_cases hc : calculateAdaptiveSeaLevel cells seaLevel continentMode
        < (cells.getD i default).height
    · rw [if_pos hc]
      exact ⟨(decide_eq_true hc).symm, by rw [if_pos hc]⟩
    · rw [if_neg hc]
      exact ⟨(decide_eq_false hc).symm, by rw [if_neg hc]⟩
  · intro hcm hne
    refine ⟨((cells.map (·.height)).filter (fun h => 0 < h)).insertionSort (· ≤ ·),
      List.perm_insertionSort _ _, List.sorted_insertionSort _ _, ?_⟩
    unfold calculateAdaptiveSeaLevel
    rw [hcm]
    have hlen : ¬ ((cells.map (·.height)).filter (fun h => 0 < h)).length = 0 := by
      simpa [List.length_eq_zero] using hne
    simp [hlen]
  · intro h0
    unfold calculateAdaptiveSeaLevel
    rw [h0]
    simp

/-- C4 witness: the theorem applied to four cells with heights 3, 1, 0, 2,
target 10, continental mode. -/
theorem C4_witness :
    (applySeaLevel exHeightCells 10 true).length = exHeightCells.length ∧
    (∀ i, i < exHeightCells.length →
      ((applySeaLevel exHeightCells 10 true).getD i default).isLand
          = decide (calculateAdaptiveSeaLevel exHeightCells 10 true
              < (exHeightCells.getD i default).height) ∧
      ((applySeaLevel exHeightCells 10 true).getD i default).height
          = (if calculateAdaptiveSeaLevel exHeightCells 10 true
                < (exHeightCells.getD i default).height
             then (exHeightCells.getD i default).height else 0)) ∧
    ((true : Bool) = true →
      (exHeightCells.map (·.height)).filter (fun h => 0 < h) ≠ [] →
      ∃ sorted : List ℚ,
        sorted.Perm ((exHeightCells.map (·.height)).filter (fun h => 0 < h)) ∧
        sorted.Sorted (· ≤ ·) ∧
        calculateAdaptiveSeaLevel exHeightCells 10 true
          = min 10
              (sorted.getD (((exHeightCells.map (·.height)).filter (fun h => 0 < h)).length / 4) 0
                * (4 / 5))) ∧
    ((exHeightCells.map (·.height)).filter (fun h => 0 < h) = [] →
      calculateAdaptiveSeaLevel exHeightCells 10 true = 10) :=
  C4_applySeaLevel_spec exHeightCells 10 true

/-! ### C10: the classifier's frame -/

/-- C10: `applySeaLevel` leaves `id`, `centroid`, `polygon` and `neighbors`
of every cell unchanged, and leaves the height of every cell it marks land
unchanged. -/
theorem C10_applySeaLevel_frame (cells : List Cell) (seaLevel : ℚ)
    (continentMode : Bool) (i : ℕ) (hi : i < cells.length) :
    ((applySeaLevel cells seaLevel continentMode).getD i default).id
        = (cells.getD i default).id ∧
    ((applySeaLevel cells seaLevel continentMode).getD i default).centroid
        = (cells.getD i default).centroid ∧
    ((applySeaLevel cells seaLevel continentMode).getD i default).polygon
        = (cells.getD i default).polygon ∧
    ((applySeaLevel cells seaLevel continentMode).getD i default).neighbors
        = (cells.getD i default).neighbors ∧
    (((applySeaLevel cells seaLevel continentMode).getD i default).isLand = true →
      ((applySeaLevel cells seaLevel continentMode).getD i default).height
          = (cells.getD i default).height) := by
  rw [applySeaLevel_getD cells seaLevel continentMode i hi]
  by_cases hc : calculateAdaptiveSeaLevel cells seaLevel continentMode
      < (cells.getD i default).height
  · rw [if_pos hc]
    exact ⟨rfl, rfl, rfl, rfl, fun _ => rfl⟩
  · rw [if_neg hc]
    exact ⟨rfl, rfl, rfl, rfl, fun h => Bool.noConfusion h⟩

/-- C10 witness: the frame theorem applied at index 0 of the height
example. -/
theorem C10_witness :
    ((applySeaLevel exHeightCells 10 true).getD 0 default).id
        = (exHeightCells.getD 0 default).id ∧
    ((applySeaLevel exHeightCells 10 true).getD 0 default).centroid
        = (exHeightCells.getD 0 default).centroid ∧
    ((applySeaLevel exHeightCells 10 true).getD 0 default).polygon
        = (exHeightCells.getD 0 default).polygon ∧
    ((applySeaLevel exHeightCells 10 true).getD 0 default).neighbors
        = (exHeightCells.getD 0 default).neighbors ∧
    (((applySeaLevel exHeightCells 10 true).getD 0 default).isLand = true →
      ((applySeaLevel exHeightCells 10 true).getD 0 default).height
          = (exHeightCells.getD 0 default).height) :=
  C10_applySeaLevel_frame exHeightCells 10 true 0 (by decide)

/-! ### C6: border carving -/

/-- C6: after border carving, no land cell's centroid lies strictly inside
the `waterMargin` strip of any of the four map edges, and every carved
cell (a land cell whose centroid lies inside the strip) comes out as water
with height 0. -/
theorem C6_carveBorder_spec (cells : List Cell) (waterMargin width height : ℚ) :
    (∀ cell ∈ carveBorderWater cells waterMargin width height,
      cell.isLand = true →
        waterMargin ≤ cell.centroid.1 ∧ cell.centroid.1 ≤ width - waterMargin ∧
        waterMargin ≤ cell.centroid.2 ∧ cell.centroid.2 ≤ height - waterMargin) ∧
    (∀ i, i < cells.length →
      ((cells.getD i default).centroid.1 < waterMargin ∨
        width - waterMargin < (cells.getD i default).centroid.1 ∨
        (cells.getD i default).centroid.2 < waterMargin ∨
        height - waterMargin < (cells.getD i default).centroid.2) →
      (cells.getD i default).isLand = true →
      ((carveBorderWater cells waterMargin width height).getD i default).isLand = false ∧
      ((carveBorderWater cells waterMargin width height).getD i default).height = 0) := by
  constructor
  · intro cell hmem hland
    unfold carveBorderWater at hmem
    rw [List.mem_map] at hmem
    obtain ⟨c, _, rfl⟩ := hmem
    by_cases hstrip : c.centroid.1 < waterMargin ∨ width - waterMargin < c.centroid.1 ∨
        c.centroid.2 < waterMargin ∨ height - waterMargin < c.centroid.2
    · rw [if_pos hstrip] at hland
      by_cases hl : c.isLand
      · rw [if_pos hl] at hland
        exact Bool.noConfusion hland
      · rw [if_neg hl] at hland
        exact absurd hland hl
    · rw [if_neg hstrip] at hland ⊢
      push_neg at hstrip
      exact ⟨hstrip.1, hstrip.2.1, hstrip.2.2.1, hstrip.2.2.2⟩
  · intro i hi hstrip hland
    rw [carveBorderWater_getD cells waterMargin width height i hi]
    rw [if_pos hstrip, if_pos hland]
    exact ⟨rfl, rfl⟩

/-- C6 witness: the carving theorem at a 200x200 map with margin 25; cell 0
sits in the strip and is carved. -/
theorem C6_witness :
    (∀ cell ∈ carveBorderWater exCarveCells 25 200 200,
      cell.isLand = true →
        25 ≤ cell.centroid.1 ∧ cell.centroid.1 ≤ 200 - 25 ∧
        25 ≤ cell.centroid.2 ∧ cell.centroid.2 ≤ 200 - 25) ∧
    (∀ i, i < exCarveCells.length →
      ((exCarveCells.getD i default).centroid.1 < 25 ∨
        200 - 25 < (exCarveCells.getD i default).centroid.1 ∨
        (exCarveCells.getD i default).centroid.2 < 25 ∨
        200 - 25 < (exCarveCells.getD i default).centroid.2) →
      (exCarveCells.getD i default).isLand = true →
      ((carveBorderWater exCarveCells 25 200 200).getD i default).isLand = false ∧
      ((carveBorderWater exCarveCells 25 200 200).getD i default).height = 0) :=
  C6_carveBorder_spec exCarveCells 25 200 200

/-! ### C8: blob placement -/

/-- C8 counterexample: at the call-site margin `blobRadius + waterMargin =
150 + 50`, the draws (radius 0.9, jitterX 0, jitterY 0, x 0, y 0) place the
blob center at x = 177.5, outside the inset safe zone, and its influence
region reaches x - radius = 42.5, inside the 50-pixel water margin. -/
theorem C8_counterexample :
    (generateRandomBlobInSafeZone 1000 1000 (150 + 50) 150 1 (9 / 10) 0 0 0 0).x
        < 150 + 50 ∧
    (generateRandomBlobInSafeZone 1000 1000 (150 + 50) 150 1 (9 / 10) 0 0 0 0).x
        - (generateRandomBlobInSafeZone 1000 1000 (150 + 50) 150 1 (9 / 10) 0 0 0 0).radius
        < 50 := by
  norm_num [generateRandomBlobInSafeZone]

/-- C8 amended: blob centers stay within the safe zone expanded by the
jitter amplitude `0.15 * maxRadius` on each side (and only that much);
with the jitter, the inset-by-`blobRadius + waterMargin` containment of
the original claim fails, as does its no-crossing consequence. -/
theorem C8_blobCenter_bounds (width height margin maxRadius peakHeight r1 r2 r3 r4 r5 : ℚ)
    (h2 : 0 ≤ r2) (h2' : r2 < 1) (h3 : 0 ≤ r3) (h3' : r3 < 1)
    (h4 : 0 ≤ r4) (h4' : r4 < 1) (h5 : 0 ≤ r5) (h5' : r5 < 1)
    (hrad : 0 ≤ maxRadius) (hw : 2 * margin ≤ width) (hh : 2 * margin ≤ height) :
    margin - (3 / 20) * maxRadius
        ≤ (generateRandomBlobInSafeZone width height margin maxRadius peakHeight r1 r2 r3 r4 r5).x ∧
    (generateRandomBlobInSafeZone width height margin maxRadius peakHeight r1 r2 r3 r4 r5).x
        ≤ width - margin + (3 / 20) * maxRadius ∧
    margin - (3 / 20) * maxRadius
        ≤ (generateRandomBlobInSafeZone width height margin maxRadius peakHeight r1 r2 r3 r4 r5).y ∧
    (generateRandomBlobInSafeZone width height margin maxRadius peakHeight r1 r2 r3 r4 r5).y
        ≤ height - margin + (3 / 20) * maxRadius := by
  have hx0 : (0 : ℚ) ≤ width - 2 * margin := by linarith
  have hy0 : (0 : ℚ) ≤ height - 2 * margin := by linarith
  have hj : (0 : ℚ) ≤ maxRadius * (3 / 10) := by linarith
  have h4a := mul_nonneg h4 hx0
  have h5a := mul_nonneg h5 hy0
  have h4b := mul_le_mul_of_nonneg_right h4'.le hx0
  have h5b := mul_le_mul_of_nonneg_right h5'.le hy0
  have h2a := mul_le_mul_of_nonneg_right (show (-(1 / 2) : ℚ) ≤ r2 - 1 / 2 by linarith) hj
  have h2b := mul_le_mul_of_nonneg_right (show r2 - 1 / 2 ≤ (1 / 2 : ℚ) by linarith) hj
  have h3a := mul_le_mul_of_nonneg_right (show (-(1 / 2) : ℚ) ≤ r3 - 1 / 2 by linarith) hj
  have h3b := mul_le_mul_of_nonneg_right (show r3 - 1 / 2 ≤ (1 / 2 : ℚ) by linarith) hj
  simp only [generateRandomBlobInSafeZone]
  refine ⟨by nlinarith, by nlinarith, by nlinarith, by nlinarith⟩

/-- C8 witness: the amended bounds at the 1000x1000, margin-200 call with
all draws 1/2. -/
theorem C8_witness :
    (200 : ℚ) - (3 / 20) * 150
        ≤ (generateRandomBlobInSafeZone 1000 1000 200 150 1 (1/2) (1/2) (1/2) (1/2) (1/2)).x ∧
    (generateRandomBlobInSafeZone 1000 1000 200 150 1 (1/2) (1/2) (1/2) (1/2) (1/2)).x
        ≤ 1000 - 200 + (3 / 20) * 150 ∧
    (200 : ℚ) - (3 / 20) * 150
        ≤ (generateRandomBlobInSafeZone 1000 1000 200 150 1 (1/2) (1/2) (1/2) (1/2) (1/2)).y ∧
    (generateRandomBlobInSafeZone 1000 1000 200 150 1 (1/2) (1/2) (1/2) (1/2) (1/2)).y
        ≤ 1000 - 200 + (3 / 20) * 150 :=
  C8_blobCenter_bounds 1000 1000 200 150 1 (1/2) (1/2) (1/2) (1/2) (1/2)
    (by norm_num) (by norm_num) (by norm_num) (by norm_num) (by norm_num)
    (by norm_num) (by norm_num) (by norm_num) (by norm_num) (by norm_num)
    (by norm_num)

/-! ### Counterexamples for the assembler and extractor claims -/

/-- C1 counterexample: the triangle's deduped boundary graph has no
degree-1 vertex, yet the assembled path is [(0,0), (10,0), (5,10)]: the
first and last points are distinct rounded vertices one whole edge apart,
not within rounding tolerance; and on the figure-eight (also free of
degree-1 vertices) the path length 3 differs from the deduped edge count
6. -/
theorem C1_counterexample :
    endpointsOf (buildAdj (dedupeSegments exTriangle)) = [] ∧
    (dedupeSegments exTriangle).length = 3 ∧
    assembleBoundaryLoop exTriangle = [(0, 0), (10, 0), (5, 10)] ∧
    vkey (5, 10) ≠ vkey (0, 0) ∧
    endpointsOf (buildAdj (dedupeSegments exFigureEight)) = [] ∧
    (dedupeSegments exFigureEight).length = 6 ∧
    (assembleBoundaryLoop exFigureEight).length = 3 := by
  decide!

/-- C5 counterexample: the single-segment open chain has exactly two
degree-1 vertices, (5,5) and (0,0); the deterministic (smaller y, then
smaller x) choice would start at (0,0), but the walk starts at (5,5), the
first endpoint in adjacency-map insertion order. -/
theorem C5_counterexample :
    endpointsOf (buildAdj (dedupeSegments exChain)) = [(500, 500), (0, 0)] ∧
    (assembleBoundaryLoop exChain).head? = some (5, 5) ∧
    vertLe (0, 0) (500, 500) ∧ ¬ vertLe (500, 500) (0, 0) ∧
    keyPt (0, 0) = ((0 : ℚ), (0 : ℚ)) ∧
    ((5 : ℚ), (5 : ℚ)) ≠ ((0 : ℚ), (0 : ℚ)) := by
  decide!

/-- C2 counterexample: land cell A and water cell B share the exact polygon
edge ((20.001, 20), (30, 20)); its canonical key has count exactly 1, yet
`findCoastalEdges` emits nothing at all, because the recovery step demands
a polygon pair exactly equal to the rounded key coordinates (20, 20),
(30, 20). -/
theorem C2_counterexample :
    exLandCellA.isLand = true ∧ exWaterCellB.isLand = false ∧
    exWaterCellB.id ∈ exLandCellA.neighbors ∧
    polygonHasEdge exLandCellA.polygon (20 + 1 / 1000, 20) (30, 20) = true ∧
    polygonHasEdge exWaterCellB.polygon (20 + 1 / 1000, 20) (30, 20) = true ∧
    (edgeMap [exLandCellA, exWaterCellB]).find?
        (fun e => decide (e.1 = canonEdgeKey (20 + 1 / 1000, 20) (30, 20)))
      = some (((2000, 2000), (3000, 2000)), 1) ∧
    findCoastalEdges [exLandCellA, exWaterCellB] 100 100 = [] := by
  decide!

/-- C7 counterexample: a land cell with polygon vertices at x = 0.0001 —
within the codebase's own rounding tolerance of the map edge x = 0, hence
"on the border with a tolerance" — produces no border segment, because the
scan uses exact equality. -/
theorem C7_counterexample :
    exNearBorderCell.isLand = true ∧
    (1 / 10000 : ℚ) ≠ 0 ∧ key2 (1 / 10000) = key2 0 ∧
    borderSegments [exNearBorderCell] 100 100 = [] := by
  decide!

/-! ### Assembler walk lemmas -/

theorem walkStep_eq_append (adj : AdjList) (s : ℕ) (startKey : VKey) :
    ∀ (fuel : ℕ) (prev : Option VKey) (curr : VKey) (visited : List VKey)
      (path : List Pt),
      ∃ rest, walkStep adj s startKey fuel prev curr visited path = path ++ rest := by
  intro fuel
  induction fuel with
  | zero => intro prev curr visited path; exact ⟨[], by simp [walkStep]⟩
  | succ n ih =>
    intro prev curr visited path
    simp only [walkStep]
    rcases hf : (((lookupAdj adj curr).getD []).map vkey).find? (fun k =>
        (match prev with
         | none => true
         | some p => decide (k ≠ p)) && !(decide (k ∈ visited ++ [curr]))) with _ | next
    · exact ⟨[keyPt curr], rfl⟩
    · dsimp only
      by_cases hb : s + 2 < (path ++ [keyPt curr]).length
      · rw [if_pos hb]
        exact ⟨[keyPt curr], rfl⟩
      · rw [if_neg hb]
        by_cases hw : next ≠ startKey ∧ next ∉ visited ++ [curr]
        · rw [if_pos hw]
          obtain ⟨rest, hr⟩ := ih (some curr) next (visited ++ [curr]) (path ++ [keyPt curr])
          exact ⟨[keyPt curr] ++ rest, by rw [hr, List.append_assoc]⟩
        · rw [if_neg hw]
          exact ⟨[keyPt curr], rfl⟩

theorem walkStep_head (adj : AdjList) (s : ℕ) (startKey : VKey) (fuel : ℕ)
    (prev : Option VKey) (curr : VKey) (visited : List VKey) :
    (walkStep adj s startKey (fuel + 1) prev curr visited []).head? = some (keyPt curr) := by
  simp only [walkStep]
  rcases hf : (((lookupAdj adj curr).getD []).map vkey).find? (fun k =>
      (match prev with
       | none => true
       | some p => decide (k ≠ p)) && !(decide (k ∈ visited ++ [curr]))) with _ | next
  · rfl
  · dsimp only
    have hb : ¬ s + 2 < ([] ++ [keyPt curr] : List Pt).length := by simp
    rw [if_neg hb]
    by_cases hw : next ≠ startKey ∧ next ∉ visited ++ [curr]
    · rw [if_pos hw]
      obtain ⟨rest, hr⟩ := walkStep_eq_append adj s startKey fuel (some curr) next
        (visited ++ [curr]) ([] ++ [keyPt curr])
      rw [hr]
      rfl
    · rw [if_neg hw]
      rfl

theorem foldl_dedupe_len_mono (l : List CoastlineSegment)
    (st : List (VKey × VKey) × List CoastlineSegment) :
    st.2.length ≤ (l.foldl (fun st seg =>
      let k1 := (vkey seg.start, vkey seg.stop)
      let k2 := (vkey seg.stop, vkey seg.start)
      if k1 ∈ st.1 ∨ k2 ∈ st.1 then st
      else (st.1 ++ [k1, k2], st.2 ++ [seg])) st).2.length := by
  induction l generalizing st with
  | nil => simp
  | cons a t ih =>
    simp only [List.foldl_cons]
    refine le_trans ?_ (ih _)
    by_cases hc : (vkey a.start, vkey a.stop) ∈ st.1 ∨ (vkey a.stop, vkey a.start) ∈ st.1
    · rw [if_pos hc]
    · rw [if_neg hc]
      simp

theorem dedupeSegments_ne_nil (segments : List CoastlineSegment)
    (h : segments ≠ []) : dedupeSegments segments ≠ [] := by
  obtain ⟨s0, rest, rfl⟩ := List.exists_cons_of_ne_nil h
  unfold dedupeSegments
  simp only [List.foldl_cons]
  intro hcon
  have h1 := foldl_dedupe_len_mono rest
    (([] : List (VKey × VKey)) ++ [(vkey s0.start, vkey s0.stop), (vkey s0.stop, vkey s0.start)],
     ([] : List CoastlineSegment) ++ [s0])
  rw [show (if (vkey s0.start, vkey s0.stop) ∈ ([] : List (VKey × VKey)) ∨
      (vkey s0.stop, vkey s0.start) ∈ ([] : List (VKey × VKey)) then
        (([] : List (VKey × VKey)), ([] : List CoastlineSegment))
      else ([] ++ [(vkey s0.start, vkey s0.stop), (vkey s0.stop, vkey s0.start)], [] ++ [s0]))
    = ([(vkey s0.start, vkey s0.stop), (vkey s0.stop, vkey s0.start)], [s0]) by simp] at hcon
  rw [show (([] : List (VKey × VKey)) ++
      [(vkey s0.start, vkey s0.stop), (vkey s0.stop, vkey s0.start)], ([] : List CoastlineSegment) ++ [s0])
    = ([(vkey s0.start, vkey s0.stop), (vkey s0.stop, vkey s0.start)], [s0]) by simp] at h1
  rw [hcon] at h1
  simp at h1

theorem ensureKey_len_le (adj : AdjList) (k : VKey) :
    adj.length ≤ (ensureKey adj k).length := by
  unfold ensureKey
  by_cases hc : adj.any (fun e => decide (e.1 = k)) <;> simp [hc]

theorem pushNbr_len (adj : AdjList) (k : VKey) (p : Pt) :
    (pushNbr adj k p).length = adj.length := by
  unfold pushNbr
  simp

theorem addSegment_len_le (adj : AdjList) (seg : CoastlineSegment) :
    adj.length ≤ (addSegment adj seg).length := by
  unfold addSegment
  rw [pushNbr_len, pushNbr_len]
  exact le_trans (ensureKey_len_le _ _) (ensureKey_len_le _ _)

theorem foldl_addSegment_len_le (l : List CoastlineSegment) (st : AdjList) :
    st.length ≤ (l.foldl addSegment st).length := by
  induction l generalizing st with
  | nil => simp
  | cons a t ih => exact le_trans (addSegment_len_le st a) (ih _)

theorem buildAdj_ne_nil (segments : List CoastlineSegment) (h : segments ≠ []) :
    buildAdj segments ≠ [] := by
  obtain ⟨s0, rest, rfl⟩ := List.exists_cons_of_ne_nil h
  unfold buildAdj
  simp only [List.foldl_cons]
  intro hcon
  have h1 := foldl_addSegment_len_le rest (addSegment [] s0)
  rw [hcon] at h1
  simp only [List.length_nil, Nat.le_zero] at h1
  have h2 := addSegment_len_le ([] : AdjList) s0
  have h3 : 1 ≤ (addSegment ([] : AdjList) s0).length := by
    unfold addSegment
    rw [pushNbr_len, pushNbr_len]
    calc 1 = (ensureKey ([] : AdjList) (vkey s0.start)).length := by simp [ensureKey]
    _ ≤ _ := ensureKey_len_le _ _
  omega

theorem assembleBoundaryLoop_eq (segments : List CoastlineSegment)
    (hne : segments ≠ []) (hd : dedupeSegments segments ≠ []) :
    assembleBoundaryLoop segments =
      (if 2 ≤ (endpointsOf (buildAdj (dedupeSegments segments))).length then
        match endpointsOf (buildAdj (dedupeSegments segments)) with
        | [] => []
        | e :: _ =>
          walkStep (buildAdj (dedupeSegments segments)) (dedupeSegments segments).length e
            ((dedupeSegments segments).length + 4) none e [] []
      else
        match ((buildAdj (dedupeSegments segments)).map Prod.fst).insertionSort vertLe with
        | [] => []
        | v :: _ =>
          walkStep (buildAdj (dedupeSegments segments)) (dedupeSegments segments).length v
            ((dedupeSegments segments).length + 4) none v [] []) := by
  unfold assembleBoundaryLoop
  rw [if_neg (by simpa [List.length_eq_zero] using hne),
    if_neg (by simpa [List.length_eq_zero] using hd)]

/-! ### C5: start-vertex choice -/

/-- C5 amended: with at least two degree-1 vertices the walk starts at the
first endpoint in adjacency-map insertion order (not at the lexicographic
minimum); with zero degree-1 vertices it starts at the globally lowest
vertex under (y, then x). -/
theorem C5_startVertex (segments : List CoastlineSegment) (hne : segments ≠ []) :
    (2 ≤ (endpointsOf (buildAdj (dedupeSegments segments))).length →
      (assembleBoundaryLoop segments).head?
        = some (keyPt ((endpointsOf (buildAdj (dedupeSegments segments))).headD (0, 0)))) ∧
    (endpointsOf (buildAdj (dedupeSegments segments)) = [] →
      ∃ m, m ∈ (buildAdj (dedupeSegments segments)).map Prod.fst ∧
        (∀ k ∈ (buildAdj (dedupeSegments segments)).map Prod.fst, vertLe m k) ∧
        (assembleBoundaryLoop segments).head? = some (keyPt m)) := by
  have hd := dedupeSegments_ne_nil segments hne
  rw [assembleBoundaryLoop_eq segments hne hd]
  constructor
  · intro h2
    rw [if_pos h2]
    rcases hE : endpointsOf (buildAdj (dedupeSegments segments)) with _ | ⟨e, rest⟩
    · rw [hE] at h2
      simp at h2
    · exact walkStep_head _ _ _ _ _ _ _
  · intro hE
    rw [if_neg (by rw [hE]; simp)]
    have hkeys : (buildAdj (dedupeSegments segments)).map Prod.fst ≠ [] := by
      have h := buildAdj_ne_nil _ hd
      simpa using h
    have hperm := List.perm_insertionSort vertLe
      ((buildAdj (dedupeSegments segments)).map Prod.fst)
    rcases hS : ((buildAdj (dedupeSegments segments)).map Prod.fst).insertionSort vertLe
      with _ | ⟨v, rest⟩
    · rw [hS] at hperm
      exact absurd hperm.nil_eq.symm hkeys
    · refine ⟨v, ?_, ?_, ?_⟩
      · have hv : v ∈ ((buildAdj (dedupeSegments segments)).map Prod.fst).insertionSort vertLe := by
          rw [hS]
          exact List.mem_cons_self v rest
        exact hperm.mem_iff.1 hv
      · intro k hk
        have hsorted := List.sorted_insertionSort vertLe
          ((buildAdj (dedupeSegments segments)).map Prod.fst)
        rw [hS] at hsorted
        have hk' : k ∈ v :: rest := by
          rw [← hS]
          exact hperm.mem_iff.2 hk
        rcases List.mem_cons.mp hk' with rfl | hk2
        · exact Or.inr ⟨rfl, le_rfl⟩
        · exact (List.sorted_cons.mp hsorted).1 k hk2
      · exact walkStep_head _ _ _ _ _ _ _

/-- C5 witness: the start-vertex theorem applied to the single-segment
chain; its two endpoints in insertion order are (5,5) then (0,0). -/
theorem C5_witness :
    (2 ≤ (endpointsOf (buildAdj (dedupeSegments exChain))).length →
      (assembleBoundaryLoop exChain).head?
        = some (keyPt ((endpointsOf (buildAdj (dedupeSegments exChain))).headD (0, 0)))) ∧
    (endpointsOf (buildAdj (dedupeSegments exChain)) = [] →
      ∃ m, m ∈ (buildAdj (dedupeSegments exChain)).map Prod.fst ∧
        (∀ k ∈ (buildAdj (dedupeSegments exChain)).map Prod.fst, vertLe m k) ∧
        (assembleBoundaryLoop exChain).head? = some (keyPt m)) :=
  C5_startVertex exChain (by decide)

/-! ### Key/point roundtrip and cyclic indexing lemmas -/

theorem keyPt_inj (a b : VKey) (h : keyPt a = keyPt b) : a = b := by
  unfold keyPt at h
  obtain ⟨h1, h2⟩ := Prod.mk.injEq _ _ _ _ ▸ h
  have hx' : a.1 = b.1 := by
    field_simp at h1
    exact h1
  have hy' : a.2 = b.2 := by
    field_simp at h2
    exact h2
  exact Prod.ext hx' hy'

theorem keyPt_vkey (k : VKey) : vkey (keyPt k) = k := by
  unfold vkey keyPt key2
  have h1 : ((k.1 : ℚ) / 100) * 100 = (k.1 : ℚ) := by field_simp
  have h2 : ((k.2 : ℚ) / 100) * 100 = (k.2 : ℚ) := by field_simp
  rw [h1, h2, round_intCast, round_intCast]

theorem cyclicGet_congr (ks : List VKey) (x y : ℕ)
    (h : x % ks.length = y % ks.length) : cyclicGet ks x = cyclicGet ks y := by
  unfold cyclicGet
  rw [h]

theorem cyclicGet_ne (ks : List VKey) (hnd : ks.Nodup) (hlen : ks.length ≠ 0)
    (x y : ℕ) (h : x % ks.length ≠ y % ks.length) :
    cyclicGet ks x ≠ cyclicGet ks y := by
  unfold cyclicGet
  intro hc
  apply h
  have hx : x % ks.length < ks.length := Nat.mod_lt _ (Nat.pos_of_ne_zero hlen)
  have hy : y % ks.length < ks.length := Nat.mod_lt _ (Nat.pos_of_ne_zero hlen)
  rw [List.getD_eq_getElem _ _ hx, List.getD_eq_getElem _ _ hy] at hc
  exact (List.Nodup.getElem_inj_iff hnd).mp hc


theorem cycle_shift_hyps (ks : List VKey) (hnd : ks.Nodup) (hn : 3 ≤ ks.length)
    (adj : AdjList)
    (hcyc : ∀ i, i < ks.length →
      nbrKeys adj (cyclicGet ks i)
          = [cyclicGet ks (i + ks.length - 1), cyclicGet ks (i + 1)] ∨
      nbrKeys adj (cyclicGet ks i)
          = [cyclicGet ks (i + 1), cyclicGet ks (i + ks.length - 1)])
    (j d : ℕ) (hd : d = 1 ∨ d = ks.length - 1) :
    (∀ i, nbrKeys adj (cyclicGet ks (j + d * (i + 1)))
          = [cyclicGet ks (j + d * i), cyclicGet ks (j + d * (i + 2))] ∨
      nbrKeys adj (cyclicGet ks (j + d * (i + 1)))
          = [cyclicGet ks (j + d * (i + 2)), cyclicGet ks (j + d * i)]) ∧
    cyclicGet ks (j + d * ks.length) = cyclicGet ks (j + d * 0) ∧
    (∀ i1 i2, i1 < i2 → i2 < ks.length →
      cyclicGet ks (j + d * i1) ≠ cyclicGet ks (j + d * i2)) := by
  have hlen : ks.length ≠ 0 := by omega
  have hpos : 0 < ks.length := by omega
  refine ⟨?_, ?_, ?_⟩
  · intro i
    have hm : (j + d * (i + 1)) % ks.length < ks.length := Nat.mod_lt _ hpos
    have hW : cyclicGet ks (j + d * (i + 1))
        = cyclicGet ks ((j + d * (i + 1)) % ks.length) :=
      cyclicGet_congr ks _ _ (Nat.mod_eq_of_lt hm).symm
    have hA : cyclicGet ks ((j + d * (i + 1)) % ks.length + 1)
        = cyclicGet ks (j + d * (i + 1) + 1) :=
      cyclicGet_congr ks _ _ (Nat.mod_add_mod _ _ _)
    have hB : cyclicGet ks ((j + d * (i + 1)) % ks.length + ks.length - 1)
        = cyclicGet ks (j + d * (i + 1) + ks.length - 1) := by
      have e1 : (j + d * (i + 1)) % ks.length + ks.length - 1
          = (j + d * (i + 1)) % ks.length + (ks.length - 1) := by omega
      have e2 : j + d * (i + 1) + ks.length - 1
          = j + d * (i + 1) + (ks.length - 1) := by omega
      rw [e1, e2]
      exact cyclicGet_congr ks _ _ (Nat.mod_add_mod _ _ _)
    rcases hd with rfl | hdn
    · -- forward direction, d = 1
      have hA' : cyclicGet ks (j + 1 * (i + 1) + 1) = cyclicGet ks (j + 1 * (i + 2)) := by
        have e : j + 1 * (i + 1) + 1 = j + 1 * (i + 2) := by omega
        rw [e]
      have hB' : cyclicGet ks (j + 1 * (i + 1) + ks.length - 1)
          = cyclicGet ks (j + 1 * i) := by
        have e : j + 1 * (i + 1) + ks.length - 1 = j + 1 * i + ks.length := by omega
        rw [e]
        exact cyclicGet_congr ks _ _ (Nat.add_mod_right _ _)
      rcases hcyc ((j + 1 * (i + 1)) % ks.length) hm with h | h
      all_goals rw [hW]
      · rw [h, hA, hB, hA', hB']
        exact Or.inl rfl
      · rw [h, hA, hB, hA', hB']
        exact Or.inr rfl
    · -- backward direction, d = length - 1
      have hn1 : ks.length = d + 1 := by omega
      have hA' : cyclicGet ks (j + d * (i + 1) + 1) = cyclicGet ks (j + d * i) := by
        have e : j + d * (i + 1) + 1 = j + d * i + ks.length := by
          rw [Nat.mul_succ]
          omega
        rw [e]
        exact cyclicGet_congr ks _ _ (Nat.add_mod_right _ _)
      have hB' : cyclicGet ks (j + d * (i + 1) + ks.length - 1)
          = cyclicGet ks (j + d * (i + 2)) := by
        have e : j + d * (i + 1) + ks.length - 1 = j + d * (i + 2) := by
          rw [Nat.mul_succ d (i + 1)]
          omega
        rw [e]
      rcases hcyc ((j + d * (i + 1)) % ks.length) hm with h | h
      all_goals rw [hW]
      · rw [h, hA, hB, hA', hB']
        exact Or.inr rfl
      · rw [h, hA, hB, hA', hB']
        exact Or.inl rfl
  · have e0 : d * 0 = 0 := by omega
    rw [e0, Nat.add_zero]
    exact cyclicGet_congr ks _ _ (Nat.add_mul_mod_self_right _ _ _)
  · intro i1 i2 h12 h2n
    apply cyclicGet_ne ks hnd hlen
    intro hEq
    have hme : Nat.ModEq ks.length (j + d * i1) (j + d * i2) := hEq
    have hc : Nat.ModEq ks.length (d * i1) (d * i2) := by
      have := Nat.ModEq.add_left_cancel' (c := j) hme
      exact this
    have hii : Nat.ModEq ks.length i1 i2 := by
      rcases hd with rfl | hdn
      · simpa using hc
      · have hn1 : ks.length = d + 1 := by omega
        have hco : Nat.gcd ks.length d = 1 := by
          rw [hn1]
          have h1 := (Nat.coprime_add_self_right.mpr (Nat.coprime_one_right d)).symm
          rwa [Nat.add_comm] at h1
        exact Nat.ModEq.cancel_left_of_coprime hco hc
    have : i1 % ks.length = i2 % ks.length := hii
    rw [Nat.mod_eq_of_lt (by omega), Nat.mod_eq_of_lt h2n] at this
    omega

/-- On a simple cycle w 0, w 1, ..., w (n-1), w n = w 0 whose adjacency
lists hold exactly the two cycle neighbors, the walk started at w 0 and
currently at w (t+1) visits the remaining vertices in order and stops at
w (n-1), one vertex short of closing the cycle. -/
theorem walkStep_cycle_aux (adj : AdjList) (s n : ℕ) (w : ℕ → VKey)
    (hn : 3 ≤ n) (hs : n ≤ s + 2)
    (hadj : ∀ i, nbrKeys adj (w (i + 1)) = [w i, w (i + 2)] ∨
      nbrKeys adj (w (i + 1)) = [w (i + 2), w i])
    (hwrap : w n = w 0)
    (hinj : ∀ i1 i2, i1 < i2 → i2 < n → w i1 ≠ w i2) :
    ∀ (fuel t : ℕ), t + 2 ≤ n → n - t - 2 ≤ fuel →
      walkStep adj s (w 0) (fuel + 1) (some (w t)) (w (t + 1))
        ((List.range (t + 1)).map w) ((List.range (t + 1)).map (fun i => keyPt (w i)))
        = (List.range n).map (fun i => keyPt (w i)) := by
  intro fuel
  induction fuel with
  | zero =>
    intro t ht hf
    have hterm : t + 2 = n := by omega
    simp only [walkStep]
    have hv : (List.range (t + 1)).map w ++ [w (t + 1)] = (List.range (t + 2)).map w := by
      simp [List.range_succ]
    have hp : (List.range (t + 1)).map (fun i => keyPt (w i)) ++ [keyPt (w (t + 1))]
        = (List.range (t + 2)).map (fun i => keyPt (w i)) := by
      simp [List.range_succ]
    rw [hv, hp]
    rcases hadj t with hA | hA <;> simp only [nbrKeys] at hA <;> rw [hA]
    · cases List.find? (fun k => decide (k ≠ w t)
          && !(decide (k ∈ List.map w (List.range (t + 2))))) [w t, w (t + 2)] with
      | none => rw [hterm]
      | some nk =>
        dsimp only
        split_ifs <;> rw [hterm]
    · cases List.find? (fun k => decide (k ≠ w t)
          && !(decide (k ∈ List.map w (List.range (t + 2))))) [w (t + 2), w t] with
      | none => rw [hterm]
      | some nk =>
        dsimp only
        split_ifs <;> rw [hterm]
  | succ f ih =>
    intro t ht hf
    simp only [walkStep]
    have hv : (List.range (t + 1)).map w ++ [w (t + 1)] = (List.range (t + 2)).map w := by
      simp [List.range_succ]
    have hp : (List.range (t + 1)).map (fun i => keyPt (w i)) ++ [keyPt (w (t + 1))]
        = (List.range (t + 2)).map (fun i => keyPt (w i)) := by
      simp [List.range_succ]
    rw [hv, hp]
    have hng1 : ¬ ((decide (w t ≠ w t)
        && !(decide (w t ∈ List.map w (List.range (t + 2))))) = true) := by simp
    by_cases hterm : t + 2 = n
    · have hw2 : w (t + 2) = w 0 := by rw [hterm, hwrap]
      have hmem0 : w 0 ∈ List.map w (List.range (t + 2)) :=
        List.mem_map.mpr ⟨0, List.mem_range.mpr (by omega), rfl⟩
      have hng2 : ¬ ((decide (w (t + 2) ≠ w t)
          && !(decide (w (t + 2) ∈ List.map w (List.range (t + 2))))) = true) := by
        rw [hw2]
        simp [hmem0]
      rcases hadj t with hA | hA <;> simp only [nbrKeys] at hA <;> rw [hA]
      · have hfind : List.find? (fun k => decide (k ≠ w t)
            && !(decide (k ∈ List.map w (List.range (t + 2))))) [w t, w (t + 2)] = none := by
          simp [hw2]
          try exact fun _ => ⟨0, by omega, rfl⟩
        rw [hfind]
        rw [hterm]
      · have hfind : List.find? (fun k => decide (k ≠ w t)
            && !(decide (k ∈ List.map w (List.range (t + 2))))) [w (t + 2), w t] = none := by
          simp [hw2]
          try exact fun _ => ⟨0, by omega, rfl⟩
        rw [hfind]
        rw [hterm]
    · have hlt : t + 2 < n := by omega
      have hne_t : w (t + 2) ≠ w t := (hinj t (t + 2) (by omega) hlt).symm
      have hnm : w (t + 2) ∉ List.map w (List.range (t + 2)) := by
        intro hmem
        obtain ⟨i, hi, hEq⟩ := List.mem_map.mp hmem
        exact hinj i (t + 2) (List.mem_range.mp hi) hlt hEq
      have hps : (decide (w (t + 2) ≠ w t)
          && !(decide (w (t + 2) ∈ List.map w (List.range (t + 2))))) = true := by
        simp [hne_t, hnm]
      have hguard : ¬ (s + 2
          < ((List.range (t + 2)).map (fun i => keyPt (w i))).length) := by
        rw [List.length_map, List.length_range]
        omega
      have hwhile : w (t + 2) ≠ w 0 ∧ w (t + 2) ∉ List.map w (List.range (t + 2)) :=
        ⟨(hinj 0 (t + 2) (by omega) hlt).symm, hnm⟩
      have hrec := ih (t + 1) (by omega) (by omega)
      rcases hadj t with hA | hA <;> simp only [nbrKeys] at hA <;> rw [hA]
      · have hfind : List.find? (fun k => decide (k ≠ w t)
            && !(decide (k ∈ List.map w (List.range (t + 2))))) [w t, w (t + 2)]
            = some (w (t + 2)) := by
          simp [hne_t]
          try exact fun x hx hEq => hinj x (t + 2) hx hlt hEq
        rw [hfind]
        dsimp only
        rw [if_neg hguard, if_pos hwhile]
        exact hrec
      · have hfind : List.find? (fun k => decide (k ≠ w t)
            && !(decide (k ∈ List.map w (List.range (t + 2))))) [w (t + 2), w t]
            = some (w (t + 2)) := by
          simp [hne_t]
          try exact fun x hx hEq => hinj x (t + 2) hx hlt hEq
        rw [hfind]
        dsimp only
        rw [if_neg hguard, if_pos hwhile]
        exact hrec

theorem cycle_result_props (adj : AdjList) (n : ℕ) (w : ℕ → VKey) (hn : 3 ≤ n)
    (hadj : ∀ i, nbrKeys adj (w (i + 1)) = [w i, w (i + 2)] ∨
      nbrKeys adj (w (i + 1)) = [w (i + 2), w i])
    (hwrap : w n = w 0)
    (hinj : ∀ i1 i2, i1 < i2 → i2 < n → w i1 ≠ w i2) :
    ((List.range n).map (fun i => keyPt (w i))).length = n ∧
    ((List.range n).map (fun i => keyPt (w i))).Nodup ∧
    ∃ a b, ((List.range n).map (fun i => keyPt (w i))).head? = some a ∧
      ((List.range n).map (fun i => keyPt (w i))).getLast? = some b ∧ a ≠ b ∧
      vkey a ∈ nbrKeys adj (vkey b) := by
  have hwinj : ∀ x ∈ List.range n, ∀ y ∈ List.range n,
      keyPt (w x) = keyPt (w y) → x = y := by
    intro x hx y hy hEq
    by_contra hne
    rcases Nat.lt_or_ge x y with h | h
    · exact hinj x y h (List.mem_range.mp hy) (keyPt_inj _ _ hEq)
    · have hlt : y < x := by omega
      exact hinj y x hlt (List.mem_range.mp hx) (keyPt_inj _ _ hEq).symm
  refine ⟨by simp, List.Nodup.map_on hwinj (List.nodup_range n), ?_⟩
  refine ⟨keyPt (w 0), keyPt (w (n - 1)), ?_, ?_, ?_, ?_⟩
  · obtain ⟨m, hm⟩ : ∃ m, n = m + 1 := ⟨n - 1, by omega⟩
    rw [hm, List.range_succ_eq_map]
    simp
  · rw [List.getLast?_eq_getElem?]
    have hlen : ((List.range n).map (fun i => keyPt (w i))).length = n := by simp
    rw [hlen]
    rw [List.getElem?_map]
    rw [List.getElem?_range (by omega : n - 1 < n)]
    rfl
  · intro hEq
    exact hinj 0 (n - 1) (by omega) (by omega) (keyPt_inj _ _ hEq)
  · rw [keyPt_vkey, keyPt_vkey]
    have h := hadj (n - 2)
    rw [show n - 2 + 1 = n - 1 by omega, show n - 2 + 2 = n by omega, hwrap] at h
    rcases h with h | h <;> rw [h]
    · exact List.mem_cons_of_mem _ (List.mem_cons_self _ _)
    · exact List.mem_cons_self _ _

theorem walkStep_cycle_start (adj : AdjList) (s n : ℕ) (w : ℕ → VKey)
    (hn : 3 ≤ n) (hs : n ≤ s + 2)
    (h0 : ∃ rest, nbrKeys adj (w 0) = w 1 :: rest)
    (hadj : ∀ i, nbrKeys adj (w (i + 1)) = [w i, w (i + 2)] ∨
      nbrKeys adj (w (i + 1)) = [w (i + 2), w i])
    (hwrap : w n = w 0)
    (hinj : ∀ i1 i2, i1 < i2 → i2 < n → w i1 ≠ w i2) :
    walkStep adj s (w 0) (s + 4) none (w 0) [] []
      = (List.range n).map (fun i => keyPt (w i)) := by
  obtain ⟨rest, h0⟩ := h0
  simp only [nbrKeys] at h0
  show walkStep adj s (w 0) ((s + 3) + 1) none (w 0) [] [] = _
  simp only [walkStep]
  rw [h0]
  have hne10 : w 1 ≠ w 0 := (hinj 0 1 (by omega) (by omega)).symm
  have hfind : List.find? (fun k => true && !(decide (k ∈ ([] : List VKey) ++ [w 0])))
      (w 1 :: rest) = some (w 1) := by
    simp [hne10]
  rw [hfind]
  dsimp only
  have hguard : ¬ (s + 2 < (([] : List Pt) ++ [keyPt (w 0)]).length) := by
    simp
  have hwhile : w 1 ≠ w 0 ∧ w 1 ∉ ([] : List VKey) ++ [w 0] := by
    refine ⟨hne10, ?_⟩
    simp [hne10]
  rw [if_neg hguard, if_pos hwhile]
  exact walkStep_cycle_aux adj s n w hn hs hadj hwrap hinj (s + 2) 0 (by omega) (by omega)

/-- C1 (amended): on a boundary graph that is a single simple cycle of at
least three rounded vertices (every vertex has degree 2 and the adjacency
lists follow the cycle order in one direction or the other),
`assembleBoundaryLoop` returns a duplicate-free path covering every cycle
vertex exactly once, whose length equals the deduped segment count and
whose distinct first and last points are adjacent in the boundary graph:
the walk stops one vertex short of re-reaching the start, so the loop is
left implicitly closed rather than repeating the start point. -/
theorem C1_cycleWalk (segments : List CoastlineSegment) (ks : List VKey)
    (hnd : ks.Nodup) (hn : 3 ≤ ks.length)
    (hne : dedupeSegments segments ≠ [])
    (hlen : (dedupeSegments segments).length = ks.length)
    (hkeysub : ∀ k ∈ (buildAdj (dedupeSegments segments)).map Prod.fst, k ∈ ks)
    (hdeg : ∀ e ∈ buildAdj (dedupeSegments segments), e.2.length = 2)
    (hcyc : ∀ i, i < ks.length →
      nbrKeys (buildAdj (dedupeSegments segments)) (cyclicGet ks i)
          = [cyclicGet ks (i + ks.length - 1), cyclicGet ks (i + 1)] ∨
      nbrKeys (buildAdj (dedupeSegments segments)) (cyclicGet ks i)
          = [cyclicGet ks (i + 1), cyclicGet ks (i + ks.length - 1)]) :
    (assembleBoundaryLoop segments).length = (dedupeSegments segments).length ∧
    (assembleBoundaryLoop segments).Nodup ∧
    ∃ a b, (assembleBoundaryLoop segments).head? = some a ∧
      (assembleBoundaryLoop segments).getLast? = some b ∧ a ≠ b ∧
      vkey a ∈ nbrKeys (buildAdj (dedupeSegments segments)) (vkey b) := by
  have hsne : segments ≠ [] := by
    intro h
    rw [h] at hne
    exact hne rfl
  rw [assembleBoundaryLoop_eq segments hsne hne]
  have hE : endpointsOf (buildAdj (dedupeSegments segments)) = [] := by
    unfold endpointsOf
    have hfil : (buildAdj (dedupeSegments segments)).filter
        (fun e => decide (e.2.length = 1)) = [] := by
      rw [List.filter_eq_nil_iff]
      intro e hme
      simp [hdeg e hme]
    rw [hfil]
    rfl
  rw [if_neg (by rw [hE]; simp)]
  have hkeysne : (buildAdj (dedupeSegments segments)).map Prod.fst ≠ [] := by
    have h := buildAdj_ne_nil _ hne
    simpa using h
  have hperm := List.perm_insertionSort vertLe
    ((buildAdj (dedupeSegments segments)).map Prod.fst)
  rcases hS : ((buildAdj (dedupeSegments segments)).map Prod.fst).insertionSort vertLe
    with _ | ⟨v, rest⟩
  · rw [hS] at hperm
    exact absurd hperm.nil_eq.symm hkeysne
  · dsimp only
    rw [hS] at hperm
    have hvmem : v ∈ ks := hkeysub v (hperm.mem_iff.1 (List.mem_cons_self v rest))
    obtain ⟨⟨j, hj⟩, hjv⟩ := List.mem_iff_get.mp hvmem
    have hv0 : cyclicGet ks j = v := by
      unfold cyclicGet
      rw [Nat.mod_eq_of_lt hj, List.getD_eq_getElem _ _ hj]
      exact hjv
    rw [← hv0]
    rcases hcyc j hj with hc | hc
    · -- first neighbor listed is cyclicGet ks (j + ks.length - 1): backward direction
      obtain ⟨hadjw, hwrapw, hinjw⟩ :=
        cycle_shift_hyps ks hnd hn (buildAdj (dedupeSegments segments)) hcyc j
          (ks.length - 1) (Or.inr rfl)
      have hW : walkStep (buildAdj (dedupeSegments segments))
          (dedupeSegments segments).length (cyclicGet ks j)
          ((dedupeSegments segments).length + 4) none (cyclicGet ks j) [] []
          = (List.range ks.length).map
              (fun i => keyPt (cyclicGet ks (j + (ks.length - 1) * i))) := by
        have h0 : ∃ rest, nbrKeys (buildAdj (dedupeSegments segments))
            (cyclicGet ks (j + (ks.length - 1) * 0))
            = cyclicGet ks (j + (ks.length - 1) * 1) :: rest := by
          refine ⟨[cyclicGet ks (j + 1)], ?_⟩
          have e0 : j + (ks.length - 1) * 0 = j := by omega
          have e1 : j + (ks.length - 1) * 1 = j + ks.length - 1 := by omega
          rw [e0, e1, hc]
        exact walkStep_cycle_start (buildAdj (dedupeSegments segments))
          (dedupeSegments segments).length ks.length
          (fun i => cyclicGet ks (j + (ks.length - 1) * i)) hn (by omega) h0
          hadjw hwrapw hinjw
      rw [hW]
      have hprops := cycle_result_props (buildAdj (dedupeSegments segments)) ks.length
        (fun i => cyclicGet ks (j + (ks.length - 1) * i)) hn hadjw hwrapw hinjw
      rw [hlen]
      exact hprops
    · obtain ⟨hadjw, hwrapw, hinjw⟩ :=
        cycle_shift_hyps ks hnd hn (buildAdj (dedupeSegments segments)) hcyc j 1 (Or.inl rfl)
      have hW : walkStep (buildAdj (dedupeSegments segments))
          (dedupeSegments segments).length (cyclicGet ks j)
          ((dedupeSegments segments).length + 4) none (cyclicGet ks j) [] []
          = (List.range ks.length).map (fun i => keyPt (cyclicGet ks (j + 1 * i))) := by
        have h0 : ∃ rest, nbrKeys (buildAdj (dedupeSegments segments))
            (cyclicGet ks (j + 1 * 0)) = cyclicGet ks (j + 1 * 1) :: rest := by
          refine ⟨[cyclicGet ks (j + ks.length - 1)], ?_⟩
          have e0 : j + 1 * 0 = j := by omega
          have e1 : j + 1 * 1 = j + 1 := by omega
          rw [e0, e1, hc]
        exact walkStep_cycle_start (buildAdj (dedupeSegments segments))
          (dedupeSegments segments).length ks.length
          (fun i => cyclicGet ks (j + 1 * i)) hn (by omega) h0
          hadjw hwrapw hinjw
      rw [hW]
      have hprops := cycle_result_props (buildAdj (dedupeSegments segments)) ks.length
        (fun i => cyclicGet ks (j + 1 * i)) hn hadjw hwrapw hinjw
      rw [hlen]
      exact hprops

/-- Witness for C1: the triangle coastline satisfies every hypothesis of
`C1_cycleWalk`, so its assembled loop has length 3 (the deduped count), no
duplicates, and distinct adjacent first and last points. -/
theorem C1_witness :
    (assembleBoundaryLoop exTriangle).length = (dedupeSegments exTriangle).length ∧
    (assembleBoundaryLoop exTriangle).Nodup ∧
    ∃ a b, (assembleBoundaryLoop exTriangle).head? = some a ∧
      (assembleBoundaryLoop exTriangle).getLast? = some b ∧ a ≠ b ∧
      vkey a ∈ nbrKeys (buildAdj (dedupeSegments exTriangle)) (vkey b) :=
  C1_cycleWalk exTriangle exTriangleKeys (by decide!) (by decide!) (by decide!)
    (by decide!) (by decide!) (by decide!) (by decide!)

/-! ### C2: interior boundary-edge emission -/

/-- C2 (amended): an interior segment is emitted iff some canonical edge
key has count exactly 1 in the edge-multiplicity map AND the exact-match
recovery succeeds: a land cell whose polygon contains the ROUNDED key
endpoints exactly, and a water neighbor likewise.  The emitted endpoints
are the points parsed back from the rounded key, not the unrounded
endpoints of the contributing polygon; a count-1 edge whose true
endpoints are not fixed points of the rounding is silently dropped. -/
theorem C2_interiorSegments_spec (cells : List Cell) (seg : CoastlineSegment) :
    seg ∈ interiorSegments cells ↔
    ∃ k : VKey × VKey, ∃ lc wc : Cell,
      (k, 1) ∈ edgeMap cells ∧
      cells.find? (fun cell =>
        cell.isLand && polygonHasEdge cell.polygon (keyPt k.1) (keyPt k.2)) = some lc ∧
      findAdjacentWaterCell lc (keyPt k.1) (keyPt k.2) cells = some wc ∧
      seg = { start := keyPt k.1, stop := keyPt k.2, landCellId := lc.id,
              waterCellId := wc.id, featureId := none } ∧
      lc ∈ cells ∧ lc.isLand = true ∧
      polygonHasEdge lc.polygon (keyPt k.1) (keyPt k.2) = true ∧
      wc ∈ cells ∧ wc.isLand = false ∧
      polygonHasEdge wc.polygon (keyPt k.1) (keyPt k.2) = true ∧
      wc.id ∈ lc.neighbors := by
  constructor
  · intro hmem
    unfold interiorSegments at hmem
    obtain ⟨ec, hec, hf⟩ := List.mem_filterMap.mp hmem
    by_cases hc : ec.2 = 1
    swap
    · rw [if_neg hc] at hf
      exact absurd hf (by simp)
    rw [if_pos hc] at hf
    dsimp only at hf
    rcases hL : cells.find? (fun cell =>
        cell.isLand && polygonHasEdge cell.polygon (keyPt ec.1.1) (keyPt ec.1.2))
      with _ | lc
    · rw [hL] at hf
      exact absurd hf (by simp)
    rw [hL] at hf
    dsimp only at hf
    rcases hW : findAdjacentWaterCell lc (keyPt ec.1.1) (keyPt ec.1.2) cells
      with _ | wc
    · rw [hW] at hf
      exact absurd hf (by simp)
    rw [hW] at hf
    dsimp only at hf
    have hseg := (Option.some.inj hf).symm
    have hpl := List.find?_some hL
    simp only [Bool.and_eq_true, decide_eq_true_eq] at hpl
    have hW2 := hW
    unfold findAdjacentWaterCell at hW2
    obtain ⟨nid, hnid, hfn⟩ := List.exists_of_findSome?_eq_some hW2
    rcases hFC : findCell cells nid with _ | nb
    · rw [hFC] at hfn
      exact absurd hfn (by simp)
    rw [hFC] at hfn
    dsimp only at hfn
    by_cases hcond : (!nb.isLand && polygonHasEdge nb.polygon (keyPt ec.1.1)
        (keyPt ec.1.2)) = true
    swap
    · rw [if_neg hcond] at hfn
      exact absurd hfn (by simp)
    rw [if_pos hcond] at hfn
    have hnbwc : nb = wc := Option.some.inj hfn
    simp only [Bool.and_eq_true, Bool.not_eq_true'] at hcond
    rw [hnbwc] at hcond
    unfold findCell at hFC
    rw [hnbwc] at hFC
    have hwid := List.find?_some hFC
    simp only [decide_eq_true_eq] at hwid
    have hk1 : (ec.1, 1) = ec := by
      rw [← hc]
    refine ⟨ec.1, lc, wc, hk1 ▸ hec, hL, hW, hseg, List.mem_of_find?_eq_some hL,
      hpl.1, hpl.2, List.mem_of_find?_eq_some hFC, hcond.1, hcond.2, ?_⟩
    rw [hwid]
    exact hnid
  · rintro ⟨k, lc, wc, hk, hL, hW, hseg, -, -, -, -, -, -, -⟩
    unfold interiorSegments
    refine List.mem_filterMap.mpr ⟨(k, 1), hk, ?_⟩
    dsimp only
    rw [if_pos rfl, hL]
    dsimp only
    rw [hW]
    dsimp only
    rw [hseg]

/-- Witness for C2: on the whole-coordinate cell pair the shared edge is
emitted, via the right-to-left direction of `C2_interiorSegments_spec`. -/
theorem C2_witness :
    ({ start := (20, 20), stop := (30, 20), landCellId := 0, waterCellId := 1,
       featureId := none } : CoastlineSegment)
      ∈ interiorSegments [exIntLandCell, exIntWaterCell] :=
  (C2_interiorSegments_spec [exIntLandCell, exIntWaterCell] _).mpr
    ⟨((2000, 2000), (3000, 2000)), exIntLandCell, exIntWaterCell,
     by decide!, by decide!, by decide!, by decide!, by decide!, by decide!,
     by decide!, by decide!, by decide!, by decide!, by decide!⟩

/-! ### C7: border segment emission -/

/-- The endpoint "normalization" of the border scan maps every point to
itself. -/
theorem borderNormalize_id (width height : ℚ) (p : Pt) :
    borderNormalize width height p = p := by
  unfold borderNormalize
  refine Prod.ext ?_ ?_ <;> dsimp only <;> split_ifs <;> simp_all

/-- C7 (amended): a border segment is emitted for a polygon edge iff one
of its endpoints lies EXACTLY on x = 0, x = width, y = 0 or y = height —
by `===` comparison, with no tolerance — and the emitted segment carries
the raw endpoints (the normalization is an identity), the sentinel water
cell id -1, and the cell's stored featureId.  Points within rounding
tolerance of the border but not exactly on it produce nothing. -/
theorem C7_borderSegments_spec (cells : List Cell) (width height : ℚ)
    (seg : CoastlineSegment) :
    seg ∈ borderSegments cells width height ↔
    ∃ cell ∈ cells, cell.isLand = true ∧ 3 ≤ cell.polygon.length ∧
      ∃ e ∈ polygonEdges cell.polygon,
        (e.1.1 = 0 ∨ e.1.1 = width ∨ e.1.2 = 0 ∨ e.1.2 = height ∨
         e.2.1 = 0 ∨ e.2.1 = width ∨ e.2.2 = 0 ∨ e.2.2 = height) ∧
        seg = { start := e.1, stop := e.2, landCellId := cell.id,
                waterCellId := -1, featureId := cell.featureId } := by
  unfold borderSegments
  rw [List.mem_flatten]
  constructor
  · rintro ⟨L, hL, hseg⟩
    obtain ⟨cell, hcf, hLdef⟩ := List.mem_map.mp hL
    obtain ⟨hcmem, hcp⟩ := List.mem_filter.mp hcf
    simp only [Bool.and_eq_true, decide_eq_true_eq] at hcp
    rw [← hLdef] at hseg
    obtain ⟨e, he, hfe⟩ := List.mem_filterMap.mp hseg
    by_cases hcond : e.1.1 = 0 ∨ e.1.1 = width ∨ e.1.2 = 0 ∨ e.1.2 = height ∨
        e.2.1 = 0 ∨ e.2.1 = width ∨ e.2.2 = 0 ∨ e.2.2 = height
    swap
    · rw [if_neg hcond] at hfe
      exact absurd hfe (by simp)
    rw [if_pos hcond] at hfe
    refine ⟨cell, hcmem, hcp.1, hcp.2, e, he, hcond, ?_⟩
    have h := Option.some.inj hfe
    rw [← h, borderNormalize_id, borderNormalize_id]
  · rintro ⟨cell, hcmem, hland, hlen, e, he, hcond, hseg⟩
    refine ⟨(polygonEdges cell.polygon).filterMap (fun e =>
      if e.1.1 = 0 ∨ e.1.1 = width ∨ e.1.2 = 0 ∨ e.1.2 = height ∨
          e.2.1 = 0 ∨ e.2.1 = width ∨ e.2.2 = 0 ∨ e.2.2 = height then
        some { start := borderNormalize width height e.1,
               stop := borderNormalize width height e.2,
               landCellId := cell.id, waterCellId := -1,
               featureId := cell.featureId }
      else none), ?_, ?_⟩
    · refine List.mem_map.mpr ⟨cell, ?_, rfl⟩
      refine List.mem_filter.mpr ⟨hcmem, ?_⟩
      simp [hland, hlen]
    · refine List.mem_filterMap.mpr ⟨e, he, ?_⟩
      rw [if_pos hcond, borderNormalize_id, borderNormalize_id, hseg]

/-- Witness for C7: the exactly-on-border cell emits its x = 0 edge, via
the right-to-left direction of `C7_borderSegments_spec`. -/
theorem C7_witness :
    ({ start := (0, 40), stop := (8, 40), landCellId := 3, waterCellId := -1,
       featureId := some 2 } : CoastlineSegment)
      ∈ borderSegments [exBorderCell] 100 100 :=
  (C7_borderSegments_spec [exBorderCell] 100 100 _).mpr
    ⟨exBorderCell, by decide!, by decide!, by decide!, ((0, 40), (8, 40)),
     by decide!, by decide!, by decide!⟩

/-! ### C3: feature classification BFS and partition -/

theorem findCell_mem (cells : List Cell) (nid : ℤ) (n : Cell)
    (h : findCell cells nid = some n) : n ∈ cells ∧ n.id = nid := by
  unfold findCell at h
  refine ⟨List.mem_of_find?_eq_some h, ?_⟩
  have := List.find?_some h
  simpa using this

theorem findCell_self (cells : List Cell) (hnd : (cells.map Cell.id).Nodup)
    (c : Cell) (hc : c ∈ cells) : findCell cells c.id = some c := by
  unfold findCell
  induction cells with
  | nil => exact absurd hc (List.not_mem_nil c)
  | cons d rest ih =>
    rcases List.mem_cons.mp hc with rfl | htail
    · simp
    · have hd : d.id ≠ c.id := by
        intro hEq
        have : c.id ∈ rest.map Cell.id := List.mem_map.mpr ⟨c, htail, rfl⟩
        rw [← hEq] at this
        exact (List.nodup_cons.mp (by simpa using hnd)).1 this
      have hfind : List.find? (fun c' => decide (c'.id = c.id)) (d :: rest)
          = List.find? (fun c' => decide (c'.id = c.id)) rest := by
        rw [List.find?_cons]
        have : (decide (d.id = c.id)) = false := by simpa using hd
        rw [this]
      rw [hfind]
      exact ih (List.nodup_cons.mp (by simpa using hnd)).2 htail

theorem enqueueNbrs_cons (cells : List Cell) (pred : Cell → Bool) (nid : ℤ)
    (rest : List ℤ) (visited : List ℤ) (queue : List Cell) :
    enqueueNbrs cells pred (nid :: rest) visited queue
      = match findCell cells nid with
        | some n =>
          if pred n && !(decide (n.id ∈ visited)) then
            enqueueNbrs cells pred rest (visited ++ [n.id]) (queue ++ [n])
          else enqueueNbrs cells pred rest visited queue
        | none => enqueueNbrs cells pred rest visited queue := by
  unfold enqueueNbrs
  rw [List.foldl_cons]
  rcases findCell cells nid with _ | n
  · rfl
  · dsimp only
    split_ifs <;> rfl

theorem enqueueNbrs_spec (cells : List Cell) (pred : Cell → Bool) :
    ∀ (nbrIds : List ℤ) (visited : List ℤ) (queue : List Cell),
    ∃ new : List Cell,
      enqueueNbrs cells pred nbrIds visited queue
        = (visited ++ new.map Cell.id, queue ++ new) ∧
      (∀ n ∈ new, n ∈ cells ∧ pred n = true ∧ n.id ∉ visited ∧
        ∃ nid ∈ nbrIds, findCell cells nid = some n) ∧
      (new.map Cell.id).Nodup ∧
      (∀ nid ∈ nbrIds, ∀ n, findCell cells nid = some n → pred n = true →
        n.id ∈ visited ++ new.map Cell.id) := by
  intro nbrIds
  induction nbrIds with
  | nil =>
    intro visited queue
    exact ⟨[], by simp [enqueueNbrs], by simp, by simp, by simp⟩
  | cons nid rest ih =>
    intro visited queue
    rw [enqueueNbrs_cons]
    rcases hFC : findCell cells nid with _ | n
    · obtain ⟨new, h1, h2, h3, h4⟩ := ih visited queue
      refine ⟨new, h1, ?_, h3, ?_⟩
      · intro m hm
        obtain ⟨hmc, hmp, hmv, mid, hmid, hmfc⟩ := h2 m hm
        exact ⟨hmc, hmp, hmv, mid, List.mem_cons_of_mem _ hmid, hmfc⟩
      · intro mid hmid m hmfc hmp
        rcases List.mem_cons.mp hmid with rfl | hmid2
        · rw [hFC] at hmfc
          exact absurd hmfc (by simp)
        · exact h4 mid hmid2 m hmfc hmp
    · dsimp only
      by_cases hcond : (pred n && !(decide (n.id ∈ visited))) = true
      · rw [if_pos hcond]
        simp only [Bool.and_eq_true, Bool.not_eq_true', decide_eq_false_iff_not]
          at hcond
        obtain ⟨new, h1, h2, h3, h4⟩ := ih (visited ++ [n.id]) (queue ++ [n])
        refine ⟨n :: new, ?_, ?_, ?_, ?_⟩
        · rw [h1]
          simp
        · intro m hm
          rcases List.mem_cons.mp hm with rfl | hm2
          · exact ⟨(findCell_mem cells nid m hFC).1, hcond.1, hcond.2,
              nid, List.mem_cons_self _ _, hFC⟩
          · obtain ⟨hmc, hmp, hmv, mid, hmid, hmfc⟩ := h2 m hm2
            refine ⟨hmc, hmp, fun hmem => hmv (List.mem_append_left _ hmem),
              mid, List.mem_cons_of_mem _ hmid, hmfc⟩
        · rw [List.map_cons]
          refine List.nodup_cons.mpr ⟨?_, h3⟩
          intro hmem
          obtain ⟨m, hm, hmid⟩ := List.mem_map.mp hmem
          have := (h2 m hm).2.2.1
          rw [hmid] at this
          exact this (List.mem_append_right _ (List.mem_singleton.mpr rfl))
        · intro mid hmid m hmfc hmp
          rcases List.mem_cons.mp hmid with rfl | hmid2
          · rw [hFC] at hmfc
            have hmn : n = m := Option.some.inj hmfc
            subst hmn
            simp
          · have := h4 mid hmid2 m hmfc hmp
            simpa [List.append_assoc] using this
      · rw [if_neg hcond]
        obtain ⟨new, h1, h2, h3, h4⟩ := ih visited queue
        refine ⟨new, h1, ?_, h3, ?_⟩
        · intro m hm
          obtain ⟨hmc, hmp, hmv, mid, hmid, hmfc⟩ := h2 m hm
          exact ⟨hmc, hmp, hmv, mid, List.mem_cons_of_mem _ hmid, hmfc⟩
        · intro mid hmid m hmfc hmp
          rcases List.mem_cons.mp hmid with rfl | hmid2
          · rw [hFC] at hmfc
            have hmn : n = m := Option.some.inj hmfc
            subst hmn
            simp only [Bool.and_eq_true, Bool.not_eq_true',
              decide_eq_false_iff_not, not_and, not_not] at hcond
            exact List.mem_append_left _ (hcond hmp)
          · exact h4 mid hmid2 m hmfc hmp

theorem bfs_drain (cells : List Cell) (pred : Cell → Bool) (S : ℤ → Prop)
    (hSavoid : ∀ c ∈ cells, pred c = true → ¬ S c.id → ∀ nid ∈ c.neighbors,
      ∀ n, findCell cells nid = some n → pred n = true → ¬ S n.id) :
    ∀ (fuel : ℕ) (queue : List Cell) (w visited acc : List ℤ),
    (∀ c ∈ queue, (c ∈ cells ∧ pred c = true) ∧ ¬ S c.id) →
    visited = w ++ queue.map Cell.id →
    visited.Nodup →
    (∀ i ∈ visited, i ∈ cells.map Cell.id) →
    queue.length + cells.length ≤ fuel + visited.length →
    ∃ Δ : List Cell,
      bfs cells pred fuel queue visited acc
        = ([], visited ++ Δ.map Cell.id, acc ++ (queue ++ Δ).map Cell.id) ∧
      (∀ c ∈ Δ, (c ∈ cells ∧ pred c = true) ∧ ¬ S c.id) ∧
      (visited ++ Δ.map Cell.id).Nodup ∧
      (∀ i ∈ visited ++ Δ.map Cell.id, i ∈ cells.map Cell.id) ∧
      (∀ c ∈ queue ++ Δ, ∀ nid ∈ c.neighbors, ∀ n, findCell cells nid = some n →
        pred n = true → n.id ∈ visited ++ Δ.map Cell.id) := by
  intro fuel
  induction fuel with
  | zero =>
    intro queue w visited acc hq hvq hnd hvc hfuel
    have hsub : visited.Subperm (cells.map Cell.id) :=
      List.Nodup.subperm hnd (fun i hi => hvc i hi)
    have hlen : visited.length ≤ (cells.map Cell.id).length := hsub.length_le
    rw [List.length_map] at hlen
    have hq0 : queue = [] := by
      have : queue.length = 0 := by omega
      exact List.length_eq_zero.mp this
    subst hq0
    refine ⟨[], ?_, by simp, by simpa using hnd, by simpa using hvc, by simp⟩
    simp [bfs]
  | succ f ih =>
    intro queue w visited acc hq hvq hnd hvc hfuel
    rcases queue with _ | ⟨cell, queue⟩
    · refine ⟨[], ?_, by simp, by simpa using hnd, by simpa using hvc, by simp⟩
      simp [bfs]
    · obtain ⟨⟨hcc, hcp⟩, hcS⟩ := hq cell (List.mem_cons_self _ _)
      obtain ⟨new, hE, hnew, hnewnd, hcomp⟩ :=
        enqueueNbrs_spec cells pred cell.neighbors visited queue
      have hstep : bfs cells pred (f + 1) (cell :: queue) visited acc
          = bfs cells pred f (queue ++ new) (visited ++ new.map Cell.id)
              (acc ++ [cell.id]) := by
        simp only [bfs]
        rw [hE]
      have hq' : ∀ c ∈ queue ++ new, (c ∈ cells ∧ pred c = true) ∧ ¬ S c.id := by
        intro c hc
        rcases List.mem_append.mp hc with hc1 | hc2
        · exact hq c (List.mem_cons_of_mem _ hc1)
        · obtain ⟨hnc, hnp, hnv, nid, hnid, hnfc⟩ := hnew c hc2
          exact ⟨⟨hnc, hnp⟩, hSavoid cell hcc hcp hcS nid hnid c hnfc hnp⟩
      have hvq' : visited ++ new.map Cell.id
          = (w ++ [cell.id]) ++ (queue ++ new).map Cell.id := by
        rw [hvq]
        simp
      have hnd' : (visited ++ new.map Cell.id).Nodup := by
        rw [List.nodup_append]
        exact ⟨hnd, hnewnd, fun a ha hb => by
          obtain ⟨n, hn, hnid⟩ := List.mem_map.mp hb
          exact ((hnew n hn).2.2.1) (hnid ▸ ha)⟩
      have hvc' : ∀ i ∈ visited ++ new.map Cell.id, i ∈ cells.map Cell.id := by
        intro i hi
        rcases List.mem_append.mp hi with hi1 | hi2
        · exact hvc i hi1
        · obtain ⟨n, hn, hnid⟩ := List.mem_map.mp hi2
          exact hnid ▸ List.mem_map.mpr ⟨n, (hnew n hn).1, rfl⟩
      have hfuel' : (queue ++ new).length + cells.length
          ≤ f + (visited ++ new.map Cell.id).length := by
        simp only [List.length_append, List.length_map]
        simp only [List.length_cons] at hfuel
        omega
      obtain ⟨Δ', hEq, hΔ, hndf, hvcf, hclo⟩ :=
        ih (queue ++ new) (w ++ [cell.id]) (visited ++ new.map Cell.id)
          (acc ++ [cell.id]) hq' hvq' hnd' hvc' hfuel'
      refine ⟨new ++ Δ', ?_, ?_, ?_, ?_, ?_⟩
      · rw [hstep, hEq]
        simp
      · intro c hc
        rcases List.mem_append.mp hc with hc1 | hc2
        · exact hq' c (List.mem_append_right _ hc1)
        · exact hΔ c hc2
      · simpa [List.append_assoc] using hndf
      · intro i hi
        apply hvcf
        simpa [List.append_assoc] using hi
      · intro c hc nid hnid n hnfc hnp
        have htarget : (visited ++ new.map Cell.id) ++ Δ'.map Cell.id
            = visited ++ (new ++ Δ').map Cell.id := by
          simp
        rcases List.mem_cons.mp (by simpa using hc :
            c ∈ cell :: (queue ++ (new ++ Δ'))) with rfl | hc2
        · have := hcomp nid hnid n hnfc hnp
          rw [← htarget]
          exact List.mem_append_left _ this
        · have hc3 : c ∈ (queue ++ new) ++ Δ' := by
            simpa [List.append_assoc] using hc2
          have := hclo c hc3 nid hnid n hnfc hnp
          rw [← htarget]
          exact this

theorem cell_id_inj (cells : List Cell) (hnd : (cells.map Cell.id).Nodup)
    (c d : Cell) (hc : c ∈ cells) (hd : d ∈ cells) (h : c.id = d.id) : c = d := by
  have h1 := findCell_self cells hnd c hc
  have h2 := findCell_self cells hnd d hd
  rw [h] at h1
  rw [h1] at h2
  exact Option.some.inj h2

theorem oceanFold_inv (cells : List Cell) (hnd : (cells.map Cell.id).Nodup) :
    ∀ (seeds : List Cell), (∀ s ∈ seeds, s ∈ cells ∧ s.isLand = false) →
    ∀ st : List ℤ × List ℤ,
    st.1 = st.2 →
    st.1.Nodup →
    (∀ i ∈ st.1, i ∈ cells.map Cell.id) →
    (∀ i ∈ st.1, ∃ c ∈ cells, c.id = i ∧ c.isLand = false) →
    (∀ c ∈ cells, c.id ∈ st.1 → ∀ nid ∈ c.neighbors, ∀ n,
      findCell cells nid = some n → n.isLand = false → n.id ∈ st.1) →
    (seeds.foldl (fun (st : List ℤ × List ℤ) startCell =>
        if startCell.id ∈ st.1 then st
        else
          let r := bfs cells (fun c => !c.isLand) (cells.length + 1) [startCell]
            (st.1 ++ [startCell.id]) st.2
          (r.2.1, r.2.2)) st).1
      = (seeds.foldl (fun (st : List ℤ × List ℤ) startCell =>
        if startCell.id ∈ st.1 then st
        else
          let r := bfs cells (fun c => !c.isLand) (cells.length + 1) [startCell]
            (st.1 ++ [startCell.id]) st.2
          (r.2.1, r.2.2)) st).2 ∧
    (seeds.foldl (fun (st : List ℤ × List ℤ) startCell =>
        if startCell.id ∈ st.1 then st
        else
          let r := bfs cells (fun c => !c.isLand) (cells.length + 1) [startCell]
            (st.1 ++ [startCell.id]) st.2
          (r.2.1, r.2.2)) st).1.Nodup ∧
    (∀ i ∈ (seeds.foldl (fun (st : List ℤ × List ℤ) startCell =>
        if startCell.id ∈ st.1 then st
        else
          let r := bfs cells (fun c => !c.isLand) (cells.length + 1) [startCell]
            (st.1 ++ [startCell.id]) st.2
          (r.2.1, r.2.2)) st).1, i ∈ cells.map Cell.id) ∧
    (∀ i ∈ (seeds.foldl (fun (st : List ℤ × List ℤ) startCell =>
        if startCell.id ∈ st.1 then st
        else
          let r := bfs cells (fun c => !c.isLand) (cells.length + 1) [startCell]
            (st.1 ++ [startCell.id]) st.2
          (r.2.1, r.2.2)) st).1, ∃ c ∈ cells, c.id = i ∧ c.isLand = false) ∧
    (∀ c ∈ cells, c.id ∈ (seeds.foldl (fun (st : List ℤ × List ℤ) startCell =>
        if startCell.id ∈ st.1 then st
        else
          let r := bfs cells (fun c => !c.isLand) (cells.length + 1) [startCell]
            (st.1 ++ [startCell.id]) st.2
          (r.2.1, r.2.2)) st).1 → ∀ nid ∈ c.neighbors, ∀ n,
      findCell cells nid = some n → n.isLand = false →
      n.id ∈ (seeds.foldl (fun (st : List ℤ × List ℤ) startCell =>
        if startCell.id ∈ st.1 then st
        else
          let r := bfs cells (fun c => !c.isLand) (cells.length + 1) [startCell]
            (st.1 ++ [startCell.id]) st.2
          (r.2.1, r.2.2)) st).1) := by
  intro seeds
  induction seeds with
  | nil =>
    intro hseeds st h12 hstnd hstc hstw hstclo
    exact ⟨h12, hstnd, hstc, hstw, hstclo⟩
  | cons s rest ih =>
    intro hseeds st h12 hstnd hstc hstw hstclo
    obtain ⟨hsc, hsw⟩ := hseeds s (List.mem_cons_self _ _)
    rw [List.foldl_cons]
    by_cases hmem : s.id ∈ st.1
    · rw [if_pos hmem]
      exact ih (fun t ht => hseeds t (List.mem_cons_of_mem _ ht)) st h12 hstnd
        hstc hstw hstclo
    · rw [if_neg hmem]
      obtain ⟨Δ, hEq, hΔ, hndf, hvcf, hclo⟩ :=
        bfs_drain cells (fun c => !c.isLand) (fun _ => False)
          (fun c _ _ _ _ _ _ _ _ => not_false)
          (cells.length + 1) [s] st.1 (st.1 ++ [s.id]) st.2
          (fun c hc => by
            rw [List.mem_singleton.mp hc]
            exact ⟨⟨hsc, by simp [hsw]⟩, not_false⟩)
          (by simp)
          (List.nodup_append.mpr ⟨hstnd, List.nodup_singleton _,
            fun a ha hb => hmem ((List.mem_singleton.mp hb) ▸ ha)⟩)
          (fun i hi => by
            rcases List.mem_append.mp hi with h1 | h2
            · exact hstc i h1
            · rw [List.mem_singleton.mp h2]
              exact List.mem_map.mpr ⟨s, hsc, rfl⟩)
          (by simp
              omega)
      dsimp only
      rw [hEq]
      dsimp only
      have hnewids : ([s] ++ Δ).map Cell.id = [s.id] ++ Δ.map Cell.id := by simp
      have hV : (st.1 ++ [s.id]) ++ Δ.map Cell.id
          = st.1 ++ ([s.id] ++ Δ.map Cell.id) := by simp
      have hA : st.2 ++ ([s] ++ Δ).map Cell.id
          = st.1 ++ ([s.id] ++ Δ.map Cell.id) := by
        rw [hnewids, ← h12]
      refine ih (fun t ht => hseeds t (List.mem_cons_of_mem _ ht))
        ((st.1 ++ [s.id]) ++ Δ.map Cell.id, st.2 ++ ([s] ++ Δ).map Cell.id)
        (by dsimp only; rw [hV, hA]) hndf hvcf ?_ ?_
      · intro i hi
        rcases List.mem_append.mp hi with h1 | h2
        · rcases List.mem_append.mp h1 with h1a | h1b
          · exact hstw i h1a
          · exact ⟨s, hsc, (List.mem_singleton.mp h1b).symm, hsw⟩
        · obtain ⟨d, hd, hdi⟩ := List.mem_map.mp h2
          obtain ⟨⟨hdc, hdp⟩, -⟩ := hΔ d hd
          exact ⟨d, hdc, hdi, by simpa using hdp⟩
      · intro c hcc hcid nid hnid n hnfc hnw
        dsimp only at hcid
        rcases List.mem_append.mp (hV ▸ hcid) with h1 | h2
        · have := hstclo c hcc h1 nid hnid n hnfc hnw
          exact List.mem_append_left _ (List.mem_append_left _ this)
        · rw [← hnewids] at h2
          obtain ⟨d, hd, hdi⟩ := List.mem_map.mp h2
          have hdc : d ∈ cells := by
            rcases List.mem_append.mp hd with h3 | h4
            · rw [List.mem_singleton.mp h3]
              exact hsc
            · exact (hΔ d h4).1.1
          have hdc2 : d = c := cell_id_inj cells hnd d c hdc hcc hdi
          subst hdc2
          exact hclo d hd nid hnid n hnfc (by simpa using hnw)

theorem labelOcean_spec (cells : List Cell) (width height : ℚ) (fid : ℕ)
    (hnd : (cells.map Cell.id).Nodup) :
    ∃ O : List ℤ,
      labelOcean cells width height fid
        = { id := fid, type := .ocean, land := false, border := true,
            size := O.length, cells := O } ∧
      O.Nodup ∧
      (∀ i ∈ O, ∃ c ∈ cells, c.id = i ∧ c.isLand = false) ∧
      (∀ c ∈ cells, c.id ∈ O → ∀ nid ∈ c.neighbors, ∀ n,
        findCell cells nid = some n → n.isLand = false → n.id ∈ O) := by
  have h := oceanFold_inv cells hnd
    (cells.filter (fun cell => !cell.isLand && isBorderCell width height cell))
    (fun s hs => by
      have hmf := List.mem_filter.mp hs
      refine ⟨hmf.1, ?_⟩
      have h2 := hmf.2
      simp only [Bool.and_eq_true, Bool.not_eq_true'] at h2
      exact h2.1)
    ([], []) rfl List.nodup_nil (by simp) (by simp) (by simp)
  obtain ⟨h12, hndO, hcO, hwO, hclo⟩ := h
  unfold labelOcean
  refine ⟨_, rfl, ?_, ?_, ?_⟩
  · rw [← h12]
    exact hndO
  · rw [← h12]
    exact hwO
  · rw [← h12]
    exact hclo

theorem labelLakes_eq (cells : List Cell) (assigned : List ℤ) (fid : ℕ) :
    labelLakes cells assigned fid
      = (cells.foldl (lakeStep cells) ⟨[], [], assigned, fid⟩).feats := rfl

theorem lakesFold_inv (cells : List Cell) (O : List ℤ)
    (hOavoid : ∀ c ∈ cells, (!c.isLand) = true → ¬ (c.id ∈ O) →
      ∀ nid ∈ c.neighbors, ∀ n, findCell cells nid = some n →
      (!n.isLand) = true → ¬ (n.id ∈ O)) :
    ∀ (l : List Cell), (∀ c ∈ l, c ∈ cells) →
    ∀ st : FillState, LakeInv cells O st →
    LakeInv cells O (l.foldl (lakeStep cells) st) ∧
    (∀ i ∈ st.assigned, i ∈ (l.foldl (lakeStep cells) st).assigned) ∧
    (∀ c ∈ l, c.isLand = false → c.id ∈ (l.foldl (lakeStep cells) st).assigned) := by
  intro l
  induction l with
  | nil =>
    intro hl st hinv
    exact ⟨hinv, fun i hi => hi, by simp⟩
  | cons c rest ih =>
    intro hl st hinv
    obtain ⟨hI1, hI2, hI3, hI4, hI5, hI6⟩ := hinv
    have hcc : c ∈ cells := hl c (List.mem_cons_self _ _)
    rw [List.foldl_cons]
    by_cases hskip : (c.isLand || decide (c.id ∈ st.visited)
        || decide (c.id ∈ st.assigned)) = true
    · have hstep : lakeStep cells st c = st := by
        unfold lakeStep
        rw [if_pos hskip]
      rw [hstep]
      obtain ⟨hinv2, hmono, hcov⟩ :=
        ih (fun d hd => hl d (List.mem_cons_of_mem _ hd)) st
          ⟨hI1, hI2, hI3, hI4, hI5, hI6⟩
      refine ⟨hinv2, hmono, ?_⟩
      intro d hd hdw
      rcases List.mem_cons.mp hd with heq | hd2
      · subst heq
        have h2 : d.id ∈ st.assigned := by
          simp only [Bool.or_eq_true, decide_eq_true_eq, hdw] at hskip
          rcases hskip with (h | h) | h
          · simp at h
          · exact hI1 ▸ List.mem_append_right _ h
          · exact h
        exact hmono d.id h2
      · exact hcov d hd2 hdw
    · simp only [Bool.or_eq_true, decide_eq_true_eq, not_or] at hskip
      obtain ⟨⟨hcland, hcv⟩, hca⟩ := hskip
      have hcw : c.isLand = false := by
        cases hc : c.isLand
        · rfl
        · exact absurd hc hcland
      have hcO : c.id ∉ O := fun hO => hca (hI1 ▸ List.mem_append_left _ hO)
      obtain ⟨Δ, hEq, hΔ, hndf, hvcf, hclo⟩ :=
        bfs_drain cells (fun c => !c.isLand) (fun i => i ∈ O) hOavoid
          (cells.length + 1) [c] st.visited (st.visited ++ [c.id]) []
          (fun d hd => by
            rw [List.mem_singleton.mp hd]
            exact ⟨⟨hcc, by simp [hcw]⟩, hcO⟩)
          (by simp)
          (List.nodup_append.mpr ⟨hI3, List.nodup_singleton _,
            fun a ha hb => hcv ((List.mem_singleton.mp hb) ▸ ha)⟩)
          (fun i hi => by
            rcases List.mem_append.mp hi with h1 | h2
            · exact hI4 i h1
            · rw [List.mem_singleton.mp h2]
              exact List.mem_map.mpr ⟨c, hcc, rfl⟩)
          (by simp
              omega)
      have hstep : lakeStep cells st c =
          { feats := st.feats ++
             [{ id := st.nextId, type := .lake, land := false, border := false,
                size := (([c] ++ Δ).map Cell.id).length,
                cells := ([c] ++ Δ).map Cell.id }],
            visited := (st.visited ++ [c.id]) ++ Δ.map Cell.id,
            assigned := st.assigned ++ ([c] ++ Δ).map Cell.id,
            nextId := st.nextId + 1 } := by
        unfold lakeStep
        rw [if_neg (by simp [hcw, hcv, hca])]
        dsimp only
        rw [hEq]
        simp
      rw [hstep]
      have hVw : ∀ i ∈ (st.visited ++ [c.id]) ++ Δ.map Cell.id,
          ∃ d ∈ cells, d.id = i ∧ d.isLand = false ∧ i ∉ O := by
        intro i hi
        rcases List.mem_append.mp hi with h1 | h2
        · rcases List.mem_append.mp h1 with h1a | h1b
          · exact hI5 i h1a
          · rw [List.mem_singleton.mp h1b]
            exact ⟨c, hcc, rfl, hcw, hcO⟩
        · obtain ⟨d, hd, hdi⟩ := List.mem_map.mp h2
          obtain ⟨⟨hdc, hdp⟩, hdO⟩ := hΔ d hd
          exact ⟨d, hdc, hdi, by simpa using hdp, hdi ▸ hdO⟩
      obtain ⟨hinv2, hmono, hcov⟩ :=
        ih (fun d hd => hl d (List.mem_cons_of_mem _ hd))
          { feats := st.feats ++
             [{ id := st.nextId, type := .lake, land := false, border := false,
                size := (([c] ++ Δ).map Cell.id).length,
                cells := ([c] ++ Δ).map Cell.id }],
            visited := (st.visited ++ [c.id]) ++ Δ.map Cell.id,
            assigned := st.assigned ++ ([c] ++ Δ).map Cell.id,
            nextId := st.nextId + 1 }
          ⟨by dsimp only
              rw [hI1]
              simp,
           by dsimp only
              rw [List.map_append, List.flatten_append, ← hI2]
              simp,
           hndf, hvcf, hVw,
           by dsimp only
              intro f hf
              rcases List.mem_append.mp hf with h1 | h2
              · exact hI6 f h1
              · rw [List.mem_singleton.mp h2]⟩
      refine ⟨hinv2, ?_, ?_⟩
      · intro i hi
        exact hmono i (List.mem_append_left _ hi)
      · intro d hd hdw
        rcases List.mem_cons.mp hd with heq | hd2
        · subst heq
          refine hmono d.id ?_
          dsimp only
          simp
        · exact hcov d hd2 hdw

theorem labelLakes_spec (cells : List Cell) (O : List ℤ) (startId : ℕ)
    (hOavoid : ∀ c ∈ cells, (!c.isLand) = true → ¬ (c.id ∈ O) →
      ∀ nid ∈ c.neighbors, ∀ n, findCell cells nid = some n →
      (!n.isLand) = true → ¬ (n.id ∈ O)) :
    (∀ f ∈ labelLakes cells O startId, f.type = FKind.lake) ∧
    ((labelLakes cells O startId).map Feature.cells).flatten.Nodup ∧
    (∀ i ∈ ((labelLakes cells O startId).map Feature.cells).flatten,
      ∃ c ∈ cells, c.id = i ∧ c.isLand = false ∧ i ∉ O) ∧
    (∀ c ∈ cells, c.isLand = false →
      c.id ∈ O ∨ c.id ∈ ((labelLakes cells O startId).map Feature.cells).flatten) := by
  obtain ⟨⟨hI1, hI2, hI3, hI4, hI5, hI6⟩, hmono, hcov⟩ :=
    lakesFold_inv cells O hOavoid cells (fun c hc => hc) ⟨[], [], O, startId⟩
      ⟨by simp, rfl, List.nodup_nil, by simp, by simp, by simp⟩
  rw [labelLakes_eq]
  refine ⟨hI6, ?_, ?_, ?_⟩
  · rw [← hI2]
    exact hI3
  · rw [← hI2]
    exact hI5
  · intro c hc hcw
    have hm := hcov c hc hcw
    rw [hI1] at hm
    rcases List.mem_append.mp hm with h | h
    · exact Or.inl h
    · right
      rw [← hI2]
      exact h

theorem labelIslands_eq (cells : List Cell) (width height : ℚ)
    (assigned : List ℤ) (fid : ℕ) :
    labelIslands cells width height assigned fid
      = (cells.foldl (islandStep cells width height) ⟨[], [], assigned, fid⟩).feats := rfl

theorem islandsFold_inv (cells : List Cell) (width height : ℚ) (A0 : List ℤ) :
    ∀ (l : List Cell), (∀ c ∈ l, c ∈ cells) →
    ∀ st : FillState, IslandInv cells A0 st →
    IslandInv cells A0 (l.foldl (islandStep cells width height) st) ∧
    (∀ i ∈ st.assigned, i ∈ (l.foldl (islandStep cells width height) st).assigned) ∧
    (∀ c ∈ l, c.isLand = true →
      c.id ∈ (l.foldl (islandStep cells width height) st).assigned) := by
  intro l
  induction l with
  | nil =>
    intro hl st hinv
    exact ⟨hinv, fun i hi => hi, by simp⟩
  | cons c rest ih =>
    intro hl st hinv
    obtain ⟨hI1, hI2, hI3, hI4, hI5, hI6⟩ := hinv
    have hcc : c ∈ cells := hl c (List.mem_cons_self _ _)
    rw [List.foldl_cons]
    by_cases hskip : (!c.isLand || decide (c.id ∈ st.visited)
        || decide (c.id ∈ st.assigned)) = true
    · have hstep : islandStep cells width height st c = st := by
        unfold islandStep
        rw [if_pos hskip]
      rw [hstep]
      obtain ⟨hinv2, hmono, hcov⟩ :=
        ih (fun d hd => hl d (List.mem_cons_of_mem _ hd)) st
          ⟨hI1, hI2, hI3, hI4, hI5, hI6⟩
      refine ⟨hinv2, hmono, ?_⟩
      intro d hd hdl
      rcases List.mem_cons.mp hd with heq | hd2
      · subst heq
        have h2 : d.id ∈ st.assigned := by
          simp only [Bool.or_eq_true, Bool.not_eq_true', decide_eq_true_eq, hdl]
            at hskip
          rcases hskip with (h | h) | h
          · simp at h
          · exact hI1 ▸ List.mem_append_right _ h
          · exact h
        exact hmono d.id h2
      · exact hcov d hd2 hdl
    · simp only [Bool.or_eq_true, Bool.not_eq_true', decide_eq_true_eq, not_or]
        at hskip
      obtain ⟨⟨hcland, hcv⟩, hca⟩ := hskip
      have hcl : c.isLand = true := by
        cases hc : c.isLand
        · exact absurd hc hcland
        · rfl
      obtain ⟨Δ, hEq, hΔ, hndf, hvcf, hclo⟩ :=
        bfs_drain cells (fun c => c.isLand) (fun _ => False)
          (fun c _ _ _ _ _ _ _ _ => not_false)
          (cells.length + 1) [c] st.visited (st.visited ++ [c.id]) []
          (fun d hd => by
            rw [List.mem_singleton.mp hd]
            exact ⟨⟨hcc, hcl⟩, not_false⟩)
          (by simp)
          (List.nodup_append.mpr ⟨hI3, List.nodup_singleton _,
            fun a ha hb => hcv ((List.mem_singleton.mp hb) ▸ ha)⟩)
          (fun i hi => by
            rcases List.mem_append.mp hi with h1 | h2
            · exact hI4 i h1
            · rw [List.mem_singleton.mp h2]
              exact List.mem_map.mpr ⟨c, hcc, rfl⟩)
          (by simp
              omega)
      have hstep : islandStep cells width height st c =
          { feats := st.feats ++
             [{ id := st.nextId, type := .island, land := true,
                border := (([c] ++ Δ).map Cell.id).any (fun cellId =>
                  match findCell cells cellId with
                  | some landCell => isBorderCell width height landCell
                  | none => false),
                size := (([c] ++ Δ).map Cell.id).length,
                cells := ([c] ++ Δ).map Cell.id }],
            visited := (st.visited ++ [c.id]) ++ Δ.map Cell.id,
            assigned := st.assigned ++ ([c] ++ Δ).map Cell.id,
            nextId := st.nextId + 1 } := by
        unfold islandStep
        rw [if_neg (by simp [hcl, hcv, hca])]
        dsimp only
        rw [hEq]
        simp
      rw [hstep]
      have hVl : ∀ i ∈ (st.visited ++ [c.id]) ++ Δ.map Cell.id,
          ∃ d ∈ cells, d.id = i ∧ d.isLand = true := by
        intro i hi
        rcases List.mem_append.mp hi with h1 | h2
        · rcases List.mem_append.mp h1 with h1a | h1b
          · exact hI5 i h1a
          · rw [List.mem_singleton.mp h1b]
            exact ⟨c, hcc, rfl, hcl⟩
        · obtain ⟨d, hd, hdi⟩ := List.mem_map.mp h2
          obtain ⟨⟨hdc, hdp⟩, -⟩ := hΔ d hd
          exact ⟨d, hdc, hdi, hdp⟩
      obtain ⟨hinv2, hmono, hcov⟩ :=
        ih (fun d hd => hl d (List.mem_cons_of_mem _ hd))
          { feats := st.feats ++
             [{ id := st.nextId, type := .island, land := true,
                border := (([c] ++ Δ).map Cell.id).any (fun cellId =>
                  match findCell cells cellId with
                  | some landCell => isBorderCell width height landCell
                  | none => false),
                size := (([c] ++ Δ).map Cell.id).length,
                cells := ([c] ++ Δ).map Cell.id }],
            visited := (st.visited ++ [c.id]) ++ Δ.map Cell.id,
            assigned := st.assigned ++ ([c] ++ Δ).map Cell.id,
            nextId := st.nextId + 1 }
          ⟨by dsimp only
              rw [hI1]
              simp,
           by dsimp only
              rw [List.map_append, List.flatten_append, ← hI2]
              simp,
           hndf, hvcf, hVl,
           by dsimp only
              intro f hf
              rcases List.mem_append.mp hf with h1 | h2
              · exact hI6 f h1
              · rw [List.mem_singleton.mp h2]⟩
      refine ⟨hinv2, ?_, ?_⟩
      · intro i hi
        exact hmono i (List.mem_append_left _ hi)
      · intro d hd hdl
        rcases List.mem_cons.mp hd with heq | hd2
        · subst heq
          refine hmono d.id ?_
          dsimp only
          simp
        · exact hcov d hd2 hdl

theorem labelIslands_spec (cells : List Cell) (width height : ℚ) (A0 : List ℤ)
    (startId : ℕ) :
    (∀ f ∈ labelIslands cells width height A0 startId, f.type = FKind.island) ∧
    ((labelIslands cells width height A0 startId).map Feature.cells).flatten.Nodup ∧
    (∀ i ∈ ((labelIslands cells width height A0 startId).map Feature.cells).flatten,
      ∃ c ∈ cells, c.id = i ∧ c.isLand = true) ∧
    (∀ c ∈ cells, c.isLand = true → c.id ∈ A0 ∨
      c.id ∈ ((labelIslands cells width height A0 startId).map Feature.cells).flatten) := by
  obtain ⟨⟨hI1, hI2, hI3, hI4, hI5, hI6⟩, hmono, hcov⟩ :=
    islandsFold_inv cells width height A0 cells (fun c hc => hc)
      ⟨[], [], A0, startId⟩
      ⟨by simp, rfl, List.nodup_nil, by simp, by simp, by simp⟩
  rw [labelIslands_eq]
  refine ⟨hI6, ?_, ?_, ?_⟩
  · rw [← hI2]
    exact hI3
  · rw [← hI2]
    exact hI5
  · intro c hc hcl
    have hm := hcov c hc hcl
    rw [hI1] at hm
    rcases List.mem_append.mp hm with h | h
    · exact Or.inl h
    · right
      rw [← hI2]
      exact h

theorem chunks_nodup (Ls : List (List ℤ)) (h : Ls.flatten.Nodup) :
    ∀ l ∈ Ls, l.Nodup := by
  induction Ls with
  | nil => simp
  | cons l0 rest ih =>
    rw [List.flatten_cons, List.nodup_append] at h
    intro l hl
    rcases List.mem_cons.mp hl with rfl | h2
    · exact h.1
    · exact ih h.2.1 l h2

theorem chunks_filter_count (Ls : List (List ℤ)) (h : Ls.flatten.Nodup) (cid : ℤ) :
    (Ls.filter (fun l => decide (cid ∈ l))).length
      = if cid ∈ Ls.flatten then 1 else 0 := by
  induction Ls with
  | nil => simp
  | cons l0 rest ih =>
    rw [List.flatten_cons, List.nodup_append] at h
    rw [List.filter_cons, List.flatten_cons]
    by_cases hc : cid ∈ l0
    · rw [if_pos (by simpa using hc)]
      have hrest : cid ∉ rest.flatten := h.2.2 hc
      rw [List.length_cons, ih h.2.1, if_neg hrest,
        if_pos (List.mem_append_left _ hc)]
    · rw [if_neg (by simpa using hc), ih h.2.1]
      by_cases hr : cid ∈ rest.flatten
      · rw [if_pos hr, if_pos (List.mem_append_right _ hr)]
      · rw [if_neg hr, if_neg (fun hm => by
          rcases List.mem_append.mp hm with h1 | h2
          · exact hc h1
          · exact hr h2)]

theorem feature_filter_count (F : List Feature)
    (h : (F.map Feature.cells).flatten.Nodup) (cid : ℤ) :
    (F.filter (fun f => decide (cid ∈ f.cells))).length
      = if cid ∈ (F.map Feature.cells).flatten then 1 else 0 := by
  have hc := chunks_filter_count (F.map Feature.cells) h cid
  rw [List.filter_map, List.length_map] at hc
  rw [← hc]
  congr 1

theorem cellWrite_id (c : Cell) (f : Feature) : (cellWrite c f).id = c.id := by
  unfold cellWrite
  split <;> rfl

theorem applyFeatureIds_map (fs : List Feature) :
    ∀ cells : List Cell,
    applyFeatureIds cells fs = cells.map (fun c => fs.foldl cellWrite c) := by
  induction fs with
  | nil =>
    intro cells
    unfold applyFeatureIds
    simp
  | cons f rest ih =>
    intro cells
    show applyFeatureIds cells (f :: rest) = _
    unfold applyFeatureIds
    rw [List.foldl_cons]
    have h1 : applyFeatureIds (cells.map (fun c => cellWrite c f)) rest
        = (cells.map (fun c => cellWrite c f)).map (fun c => rest.foldl cellWrite c) :=
      ih (cells.map (fun c => cellWrite c f))
    unfold applyFeatureIds at h1
    rw [show (cells.map (fun c =>
        if c.id ∈ f.cells then { c with featureId := some f.id } else c))
        = cells.map (fun c => cellWrite c f) from rfl, h1, List.map_map]
    congr 1

theorem foldl_cellWrite_id (fs : List Feature) :
    ∀ c : Cell, (fs.foldl cellWrite c).id = c.id := by
  induction fs with
  | nil => intro c; rfl
  | cons f rest ih =>
    intro c
    rw [List.foldl_cons, ih (cellWrite c f), cellWrite_id]

theorem foldl_cellWrite_no (fs : List Feature) :
    ∀ c : Cell, (∀ f ∈ fs, c.id ∉ f.cells) → fs.foldl cellWrite c = c := by
  induction fs with
  | nil => intro c _; rfl
  | cons f rest ih =>
    intro c h
    rw [List.foldl_cons]
    have h1 : cellWrite c f = c := by
      unfold cellWrite
      rw [if_neg (h f (List.mem_cons_self _ _))]
    rw [h1]
    exact ih c (fun g hg => h g (List.mem_cons_of_mem _ hg))

theorem foldl_cellWrite_one (fs : List Feature) :
    ∀ (c : Cell) (f : Feature),
    fs.filter (fun g => decide (c.id ∈ g.cells)) = [f] →
    (fs.foldl cellWrite c).featureId = some f.id := by
  induction fs with
  | nil =>
    intro c f h
    exact absurd h (by simp)
  | cons g rest ih =>
    intro c f h
    rw [List.filter_cons] at h
    rw [List.foldl_cons]
    by_cases hg : c.id ∈ g.cells
    · rw [if_pos (by simpa using hg)] at h
      have hgf : g = f ∧ rest.filter (fun g => decide (c.id ∈ g.cells)) = [] := by
        have := List.cons.injEq g (rest.filter (fun g => decide (c.id ∈ g.cells))) f []
          ▸ h
        exact ⟨this.1, this.2⟩
      obtain ⟨rfl, hrest⟩ := hgf
      have hw : cellWrite c g = { c with featureId := some g.id } := by
        unfold cellWrite
        rw [if_pos hg]
      rw [hw]
      have hnone : ∀ f' ∈ rest, ({ c with featureId := some g.id } : Cell).id ∉ f'.cells := by
        intro f' hf'
        have := List.filter_eq_nil_iff.mp hrest f' hf'
        simpa using this
      rw [foldl_cellWrite_no rest _ hnone]
    · rw [if_neg (by simpa using hg)] at h
      have hw : cellWrite c g = c := by
        unfold cellWrite
        rw [if_neg hg]
      rw [hw]
      exact ih c f h

theorem foldl_append_cells (L : List Feature) :
    ∀ a : List ℤ, L.foldl (fun a f => a ++ f.cells) a
      = a ++ (L.map Feature.cells).flatten := by
  induction L with
  | nil => intro a; simp
  | cons f rest ih =>
    intro a
    rw [List.foldl_cons, ih (a ++ f.cells)]
    simp

theorem featureAssembly_spec (cells : List Cell)
    (hnd : (cells.map Cell.id).Nodup)
    (O : List ℤ) (L I : List Feature) (oc : Feature)
    (hoct : oc.type = FKind.ocean) (hocc : oc.cells = O)
    (hOnd : O.Nodup)
    (hOw : ∀ i ∈ O, ∃ c ∈ cells, c.id = i ∧ c.isLand = false)
    (hLtype : ∀ f ∈ L, f.type = FKind.lake)
    (hLnd : ((L.map Feature.cells).flatten).Nodup)
    (hLw : ∀ i ∈ (L.map Feature.cells).flatten,
      ∃ c ∈ cells, c.id = i ∧ c.isLand = false ∧ i ∉ O)
    (hLcov : ∀ c ∈ cells, c.isLand = false →
      c.id ∈ O ∨ c.id ∈ (L.map Feature.cells).flatten)
    (hItype : ∀ f ∈ I, f.type = FKind.island)
    (hInd : ((I.map Feature.cells).flatten).Nodup)
    (hIl : ∀ i ∈ (I.map Feature.cells).flatten,
      ∃ c ∈ cells, c.id = i ∧ c.isLand = true)
    (hIcov : ∀ c ∈ cells, c.isLand = true →
      c.id ∈ O ++ (L.map Feature.cells).flatten ∨
      c.id ∈ (I.map Feature.cells).flatten) :
    ((oc :: (L ++ I)).filter (fun f => decide (f.type = FKind.ocean))).length = 1 ∧
    (∀ f ∈ oc :: (L ++ I), f.cells.Nodup ∧
      ∀ cid ∈ f.cells, cid ∈ cells.map Cell.id) ∧
    (∀ c ∈ cells,
      ((oc :: (L ++ I)).filter (fun f => decide (c.id ∈ f.cells))).length = 1) ∧
    (∀ c ∈ applyFeatureIds cells (oc :: (L ++ I)),
      ∃ f ∈ oc :: (L ++ I), c.featureId = some f.id ∧ c.id ∈ f.cells) := by
  have hLnotO : ∀ i ∈ (L.map Feature.cells).flatten, i ∉ O := by
    intro i hi
    exact (hLw i hi).choose_spec.2.2.2
  have hInotWater : ∀ i ∈ (I.map Feature.cells).flatten,
      ∀ c ∈ cells, c.id = i → c.isLand = true := by
    intro i hi c hc hci
    obtain ⟨d, hd, hdi, hdl⟩ := hIl i hi
    have : d = c := cell_id_inj cells hnd d c hd hc (hdi.trans hci.symm)
    exact this ▸ hdl
  have hcount : ∀ c ∈ cells,
      ((oc :: (L ++ I)).filter (fun f => decide (c.id ∈ f.cells))).length = 1 := by
    intro c hc
    rw [List.filter_cons, List.filter_append]
    have hLcount := feature_filter_count L hLnd c.id
    have hIcount := feature_filter_count I hInd c.id
    by_cases hw : c.isLand = false
    · have hInot : c.id ∉ (I.map Feature.cells).flatten := by
        intro hmem
        have := hInotWater c.id hmem c hc rfl
        rw [hw] at this
        exact Bool.noConfusion this
      rcases hLcov c hc hw with hO | hLf
      · have hLnot : c.id ∉ (L.map Feature.cells).flatten :=
          fun hmem => hLnotO c.id hmem hO
        rw [if_pos (by simp [hocc, hO])]
        rw [List.length_cons, List.length_append, hLcount, hIcount,
          if_neg hLnot, if_neg hInot]
      · have hOnot : c.id ∉ O := hLnotO c.id hLf
        rw [if_neg (by simp [hocc, hOnot])]
        rw [List.length_append, hLcount, hIcount, if_pos hLf, if_neg hInot]
    · have hl : c.isLand = true := by
        cases hil : c.isLand
        · exact absurd hil hw
        · rfl
      have hOnot : c.id ∉ O := by
        intro hO
        obtain ⟨d, hd, hdi, hdw⟩ := hOw c.id hO
        have : d = c := cell_id_inj cells hnd d c hd hc hdi
        rw [this, hl] at hdw
        exact Bool.noConfusion hdw
      have hLnot : c.id ∉ (L.map Feature.cells).flatten := by
        intro hLf
        obtain ⟨d, hd, hdi, hdw, -⟩ := hLw c.id hLf
        have : d = c := cell_id_inj cells hnd d c hd hc hdi
        rw [this, hl] at hdw
        exact Bool.noConfusion hdw
      rcases hIcov c hc hl with hA | hIf
      · rcases List.mem_append.mp hA with h1 | h2
        · exact absurd h1 hOnot
        · exact absurd h2 hLnot
      · rw [if_neg (by simp [hocc, hOnot])]
        rw [List.length_append, hLcount, hIcount, if_neg hLnot, if_pos hIf]
  refine ⟨?_, ?_, hcount, ?_⟩
  · rw [List.filter_cons, if_pos (by simp [hoct]), List.filter_append]
    have hL0 : L.filter (fun f => decide (f.type = FKind.ocean)) = [] := by
      rw [List.filter_eq_nil_iff]
      intro f hf
      simp [hLtype f hf]
    have hI0 : I.filter (fun f => decide (f.type = FKind.ocean)) = [] := by
      rw [List.filter_eq_nil_iff]
      intro f hf
      simp [hItype f hf]
    rw [hL0, hI0]
    rfl
  · intro f hf
    rcases List.mem_cons.mp hf with rfl | hf2
    · refine ⟨hocc ▸ hOnd, ?_⟩
      intro cid hcid
      obtain ⟨c, hc, hci, -⟩ := hOw cid (hocc ▸ hcid)
      exact hci ▸ List.mem_map.mpr ⟨c, hc, rfl⟩
    · rcases List.mem_append.mp hf2 with hfL | hfI
      · have hfsub : f.cells ∈ L.map Feature.cells := List.mem_map.mpr ⟨f, hfL, rfl⟩
        refine ⟨chunks_nodup _ hLnd f.cells hfsub, ?_⟩
        intro cid hcid
        have : cid ∈ (L.map Feature.cells).flatten :=
          List.mem_flatten.mpr ⟨f.cells, hfsub, hcid⟩
        obtain ⟨c, hc, hci, -, -⟩ := hLw cid this
        exact hci ▸ List.mem_map.mpr ⟨c, hc, rfl⟩
      · have hfsub : f.cells ∈ I.map Feature.cells := List.mem_map.mpr ⟨f, hfI, rfl⟩
        refine ⟨chunks_nodup _ hInd f.cells hfsub, ?_⟩
        intro cid hcid
        have : cid ∈ (I.map Feature.cells).flatten :=
          List.mem_flatten.mpr ⟨f.cells, hfsub, hcid⟩
        obtain ⟨c, hc, hci, -⟩ := hIl cid this
        exact hci ▸ List.mem_map.mpr ⟨c, hc, rfl⟩
  · intro c' hc'
    rw [applyFeatureIds_map] at hc'
    obtain ⟨c, hc, hceq⟩ := List.mem_map.mp hc'
    have hcnt := hcount c hc
    obtain ⟨f, hfeq⟩ := List.length_eq_one.mp hcnt
    have hfmem : f ∈ (oc :: (L ++ I)).filter (fun f => decide (c.id ∈ f.cells)) := by
      rw [hfeq]
      exact List.mem_singleton.mpr rfl
    refine ⟨f, List.mem_of_mem_filter hfmem, ?_, ?_⟩
    · rw [← hceq]
      exact foldl_cellWrite_one _ c f hfeq
    · have hp := List.of_mem_filter hfmem
      have hcid : c.id ∈ f.cells := by simpa using hp
      rw [← hceq, foldl_cellWrite_id]
      exact hcid

/-- C3: with duplicate-free cell ids and a symmetric neighbor relation,
`labelFeatures` produces exactly one ocean feature, every feature holds a
duplicate-free list of known cell ids, every cell belongs to exactly one
feature (the features partition the cell set), and every returned cell
carries the featureId of the one feature containing it. -/
theorem C3_labelFeatures_partition (cells : List Cell) (width height : ℚ)
    (hnd : (cells.map Cell.id).Nodup)
    (hsym : ∀ c ∈ cells, ∀ d ∈ cells, c.id ∈ d.neighbors → d.id ∈ c.neighbors) :
    ((labelFeatures cells width height).1.filter
        (fun f => decide (f.type = FKind.ocean))).length = 1 ∧
    (∀ f ∈ (labelFeatures cells width height).1, f.cells.Nodup ∧
      ∀ cid ∈ f.cells, cid ∈ cells.map Cell.id) ∧
    (∀ c ∈ cells, ((labelFeatures cells width height).1.filter
        (fun f => decide (c.id ∈ f.cells))).length = 1) ∧
    (∀ c ∈ (labelFeatures cells width height).2,
      ∃ f ∈ (labelFeatures cells width height).1,
        c.featureId = some f.id ∧ c.id ∈ f.cells) := by
  have hmapid : (cells.map (fun c => { c with featureId := none })).map Cell.id = cells.map Cell.id := by
    rw [List.map_map]
    rfl
  have hnd0 : ((cells.map (fun c => { c with featureId := none })).map Cell.id).Nodup := by
    rw [hmapid]
    exact hnd
  have hsym0 : ∀ c ∈ (cells.map (fun c => { c with featureId := none })), ∀ d ∈ (cells.map (fun c => { c with featureId := none })),
      c.id ∈ d.neighbors → d.id ∈ c.neighbors := by
    intro c hc d hd hcd
    obtain ⟨c0, hc0, rfl⟩ := List.mem_map.mp hc
    obtain ⟨d0, hd0, rfl⟩ := List.mem_map.mp hd
    exact hsym c0 hc0 d0 hd0 hcd
  obtain ⟨O, hOeq, hOnd, hOw, hOclo⟩ :=
    labelOcean_spec (cells.map (fun c => { c with featureId := none })) width height 0 hnd0
  have hocc : (labelOcean (cells.map (fun c => { c with featureId := none })) width height 0).cells = O := by
    rw [hOeq]
  have hoct : (labelOcean (cells.map (fun c => { c with featureId := none })) width height 0).type = FKind.ocean := by
    rw [hOeq]
  have hOavoid : ∀ c ∈ (cells.map (fun c => { c with featureId := none })), (!c.isLand) = true → ¬ (c.id ∈ O) →
      ∀ nid ∈ c.neighbors, ∀ n, findCell (cells.map (fun c => { c with featureId := none })) nid = some n →
      (!n.isLand) = true → ¬ (n.id ∈ O) := by
    intro c hc hcw hcO nid hnid n hnfc hnw hnO
    obtain ⟨hncell, hnid2⟩ := findCell_mem (cells.map (fun c => { c with featureId := none })) nid n hnfc
    have hnin : n.id ∈ c.neighbors := hnid2 ▸ hnid
    have hcin : c.id ∈ n.neighbors := hsym0 n hncell c hc hnin
    have hcw2 : c.isLand = false := by simpa using hcw
    exact hcO (hOclo n hncell hnO c.id hcin c
      (findCell_self (cells.map (fun c => { c with featureId := none })) hnd0 c hc) hcw2)
  obtain ⟨hLtype, hLnd, hLw, hLcov⟩ :=
    labelLakes_spec (cells.map (fun c => { c with featureId := none })) O 1 hOavoid
  obtain ⟨hItype, hInd, hIl, hIcov⟩ :=
    labelIslands_spec (cells.map (fun c => { c with featureId := none })) width height
      (O ++ ((labelLakes (cells.map (fun c => { c with featureId := none })) O 1).map Feature.cells).flatten)
      (1 + (labelLakes (cells.map (fun c => { c with featureId := none })) O 1).length)
  have hLF : labelFeatures cells width height
      = (labelOcean (cells.map (fun c => { c with featureId := none })) width height 0 ::
          (labelLakes (cells.map (fun c => { c with featureId := none })) O 1 ++
           labelIslands (cells.map (fun c => { c with featureId := none })) width height
             (O ++ ((labelLakes (cells.map (fun c => { c with featureId := none })) O 1).map Feature.cells).flatten)
             (1 + (labelLakes (cells.map (fun c => { c with featureId := none })) O 1).length)),
         applyFeatureIds (cells.map (fun c => { c with featureId := none }))
           (labelOcean (cells.map (fun c => { c with featureId := none })) width height 0 ::
            (labelLakes (cells.map (fun c => { c with featureId := none })) O 1 ++
             labelIslands (cells.map (fun c => { c with featureId := none })) width height
               (O ++ ((labelLakes (cells.map (fun c => { c with featureId := none })) O 1).map Feature.cells).flatten)
               (1 + (labelLakes (cells.map (fun c => { c with featureId := none })) O 1).length)))) := by
    unfold labelFeatures
    dsimp only
    rw [hocc, foldl_append_cells]
  obtain ⟨hA1, hA2, hA3, hA4⟩ :=
    featureAssembly_spec (cells.map (fun c => { c with featureId := none })) hnd0 O
      (labelLakes (cells.map (fun c => { c with featureId := none })) O 1)
      (labelIslands (cells.map (fun c => { c with featureId := none })) width height
        (O ++ ((labelLakes (cells.map (fun c => { c with featureId := none })) O 1).map Feature.cells).flatten)
        (1 + (labelLakes (cells.map (fun c => { c with featureId := none })) O 1).length))
      (labelOcean (cells.map (fun c => { c with featureId := none })) width height 0)
      hoct hocc hOnd hOw hLtype hLnd hLw hLcov hItype hInd hIl hIcov
  rw [hLF]
  refine ⟨hA1, ?_, ?_, hA4⟩
  · intro f hf
    obtain ⟨hfnd, hfsub⟩ := hA2 f hf
    refine ⟨hfnd, ?_⟩
    intro cid hcid
    have := hfsub cid hcid
    rwa [hmapid] at this
  · intro c hc
    have hc0 : ({ c with featureId := none } : Cell) ∈ (cells.map (fun c => { c with featureId := none })) :=
      List.mem_map.mpr ⟨c, hc, rfl⟩
    exact hA3 ({ c with featureId := none } : Cell) hc0

/-- Witness for C3: the partition theorem applied to the concrete 3-cell
map (border water, land, interior lake water). -/
theorem C3_witness :
    (((labelFeatures exCells3 100 100).1.filter
        (fun f => decide (f.type = FKind.ocean))).length = 1) ∧
    (∀ f ∈ (labelFeatures exCells3 100 100).1, f.cells.Nodup ∧
      ∀ cid ∈ f.cells, cid ∈ exCells3.map Cell.id) ∧
    (∀ c ∈ exCells3, ((labelFeatures exCells3 100 100).1.filter
        (fun f => decide (c.id ∈ f.cells))).length = 1) ∧
    (∀ c ∈ (labelFeatures exCells3 100 100).2,
      ∃ f ∈ (labelFeatures exCells3 100 100).1,
        c.featureId = some f.id ∧ c.id ∈ f.cells) :=
  C3_labelFeatures_partition exCells3 100 100 (by decide!) (by decide!)
